import Mathlib

/-!
Verification development for the session-combining tool (src/run.py).

The program merges multiple BIDS sessions of one subject into a single
combined session.  Its core is a renumbering engine that rewrites
filenames with Python regular-expression substitutions:

  * anatomical and field-map files: re.sub(r'_ses-[^_]+', run_str, name)
  * functional files: re.sub(r'_ses-[^_]+', '', name) followed by either
    re.sub(r'_run-[\d]+', run_str, name) or
    re.sub(r'task-[^_]+', 'task-' + task + run_str, name)

All three patterns have the shape TOKEN followed by a non-empty maximal
run of characters satisfying a predicate.  `subTok` below embeds exactly
that substitution semantics (leftmost, non-overlapping, greedy, global,
continuing after the replaced text) over `List Char`.
-/

/-- Boolean test that the second list starts with the first list. -/
def startsWith : List Char → List Char → Bool
  | [], _ => true
  | _ :: _, [] => false
  | a :: as, b :: bs => a == b && startsWith as bs

/-- Boolean substring test, models the Python expression `t in s`. -/
def containsTok (t : List Char) : List Char → Bool
  | [] => t.isEmpty
  | c :: cs => startsWith t (c :: cs) || containsTok t cs

/-- Fuel-driven worker for `subTok`; the fuel is an upper bound on the
number of characters still to be scanned, so `s.length` always
suffices. -/
def subTokF (t0 : Char) (ts : List Char) (p : Char → Bool) (repl : List Char) :
    Nat → List Char → List Char
  | _, [] => []
  | 0, s => s
  | fuel + 1, c :: cs =>
    if startsWith (t0 :: ts) (c :: cs)
        && !(((c :: cs).drop (ts.length + 1)).takeWhile p).isEmpty then
      repl ++ subTokF t0 ts p repl fuel (((c :: cs).drop (ts.length + 1)).dropWhile p)
    else
      c :: subTokF t0 ts p repl fuel cs

/-- Embedding of `re.sub(TOK ++ P+, repl, s)` where `TOK = t0 :: ts` is a
literal token and `P` is a character class given by `p`: every leftmost
occurrence of the token followed by a non-empty maximal run of
`p`-characters is replaced by `repl`, and scanning continues after the
match. -/
def subTok (t0 : Char) (ts : List Char) (p : Char → Bool) (repl : List Char)
    (s : List Char) : List Char :=
  subTokF t0 ts p repl s.length s

theorem length_dropWhile_le (p : Char → Bool) (l : List Char) :
    (l.dropWhile p).length ≤ l.length := by
  induction l with
  | nil => simp [List.dropWhile]
  | cons c cs ih =>
    rw [List.dropWhile]
    by_cases h : p c = true
    · rw [h]
      simp only [List.length_cons]
      omega
    · rw [Bool.not_eq_true] at h
      rw [h]

theorem subTokF_fuel (t0 : Char) (ts : List Char) (p : Char → Bool) (repl : List Char) :
    ∀ (fuel : Nat) (s : List Char), s.length ≤ fuel →
      subTokF t0 ts p repl fuel s = subTok t0 ts p repl s := by
  intro fuel
  induction fuel using Nat.strong_induction_on with
  | _ fuel ih =>
    intro s hs
    match fuel, s with
    | 0, [] => rfl
    | n + 1, [] => rfl
    | 0, c :: cs => simp at hs
    | n + 1, c :: cs =>
      have hcs : cs.length ≤ n := Nat.le_of_succ_le_succ hs
      have hdrop : (((c :: cs).drop (ts.length + 1)).dropWhile p).length ≤ cs.length := by
        have h1 : (((c :: cs).drop (ts.length + 1)).dropWhile p).length ≤
            ((c :: cs).drop (ts.length + 1)).length := length_dropWhile_le _ _
        have h2 : ((c :: cs).drop (ts.length + 1)).length ≤ cs.length := by
          rw [List.length_drop]
          simp only [List.length_cons]
          omega
        omega
      show subTokF t0 ts p repl (n + 1) (c :: cs) = subTok t0 ts p repl (c :: cs)
      rw [subTok]
      simp only [List.length_cons]
      rw [show subTokF t0 ts p repl (n + 1) (c :: cs) =
        (if startsWith (t0 :: ts) (c :: cs)
            && !(((c :: cs).drop (ts.length + 1)).takeWhile p).isEmpty then
          repl ++ subTokF t0 ts p repl n (((c :: cs).drop (ts.length + 1)).dropWhile p)
        else
          c :: subTokF t0 ts p repl n cs) from rfl]
      rw [show subTokF t0 ts p repl (cs.length + 1) (c :: cs) =
        (if startsWith (t0 :: ts) (c :: cs)
            && !(((c :: cs).drop (ts.length + 1)).takeWhile p).isEmpty then
          repl ++ subTokF t0 ts p repl cs.length (((c :: cs).drop (ts.length + 1)).dropWhile p)
        else
          c :: subTokF t0 ts p repl cs.length cs) from rfl]
      by_cases h : (startsWith (t0 :: ts) (c :: cs)
          && !(((c :: cs).drop (ts.length + 1)).takeWhile p).isEmpty) = true
      · rw [if_pos h, if_pos h,
          ih n (Nat.lt_succ_self n) _ (Nat.le_trans hdrop hcs),
          ih cs.length (Nat.lt_succ_of_le hcs) _ hdrop]
      · rw [if_neg h, if_neg h,
          ih n (Nat.lt_succ_self n) _ hcs,
          ih cs.length (Nat.lt_succ_of_le hcs) _ (Nat.le_refl _)]

theorem subTok_nil (t0 : Char) (ts : List Char) (p : Char → Bool) (repl : List Char) :
    subTok t0 ts p repl [] = [] := rfl

theorem subTok_cons (t0 : Char) (ts : List Char) (p : Char → Bool) (repl : List Char)
    (c : Char) (cs : List Char) :
    subTok t0 ts p repl (c :: cs) =
      if startsWith (t0 :: ts) (c :: cs)
          && !(((c :: cs).drop (ts.length + 1)).takeWhile p).isEmpty then
        repl ++ subTok t0 ts p repl (((c :: cs).drop (ts.length + 1)).dropWhile p)
      else
        c :: subTok t0 ts p repl cs := by
  have hdrop : (((c :: cs).drop (ts.length + 1)).dropWhile p).length ≤ cs.length := by
    have h1 : (((c :: cs).drop (ts.length + 1)).dropWhile p).length ≤
        ((c :: cs).drop (ts.length + 1)).length := length_dropWhile_le _ _
    have h2 : ((c :: cs).drop (ts.length + 1)).length ≤ cs.length := by
      rw [List.length_drop]; simp only [List.length_cons]; omega
    omega
  conv_lhs => rw [subTok]
  simp only [List.length_cons]
  rw [show subTokF t0 ts p repl (cs.length + 1) (c :: cs) =
    (if startsWith (t0 :: ts) (c :: cs)
        && !(((c :: cs).drop (ts.length + 1)).takeWhile p).isEmpty then
      repl ++ subTokF t0 ts p repl cs.length (((c :: cs).drop (ts.length + 1)).dropWhile p)
    else
      c :: subTokF t0 ts p repl cs.length cs) from rfl]
  by_cases h : (startsWith (t0 :: ts) (c :: cs)
      && !(((c :: cs).drop (ts.length + 1)).takeWhile p).isEmpty) = true
  · rw [if_pos h, if_pos h, subTokF_fuel _ _ _ _ _ _ hdrop]
  · rw [if_neg h, if_neg h, subTokF_fuel _ _ _ _ _ _ (Nat.le_refl _)]
theorem subTok_cons_skip (t0 : Char) (ts : List Char) (p : Char → Bool) (repl : List Char)
    (c : Char) (cs : List Char) (h : startsWith (t0 :: ts) (c :: cs) = false) :
    subTok t0 ts p repl (c :: cs) = c :: subTok t0 ts p repl cs := by
  rw [subTok_cons, h]
  simp

/-- No occurrence of the pattern `t` (token plus its mandatory follower)
can start at any position of `a` in the string `a ++ b`; this is the
precondition under which the substitution leaves `a` untouched. -/
def noOccScan (t : List Char) : List Char → List Char → Bool
  | [], _ => true
  | c :: a, b => !startsWith t (c :: (a ++ b)) && noOccScan t a b

theorem noOccScan_append (t a1 a2 b : List Char) :
    noOccScan t (a1 ++ a2) b =
      (noOccScan t a1 (a2 ++ b) && noOccScan t a2 b) := by
  induction a1 with
  | nil => simp [noOccScan]
  | cons c a1 ih =>
    simp only [List.cons_append, noOccScan, List.append_assoc, ih, Bool.and_assoc,
      List.append_eq]

theorem noOccScan_singleton (t : List Char) (c : Char) (b : List Char) :
    noOccScan t [c] b = !startsWith t (c :: b) := by
  simp [noOccScan]

theorem startsWith_length_le (t : List Char) :
    ∀ s, startsWith t s = true → t.length ≤ s.length := by
  induction t with
  | nil => intro s _; simp
  | cons x xs ih =>
    intro s hs
    match s with
    | [] => simp [startsWith] at hs
    | y :: ys =>
      simp only [startsWith, Bool.and_eq_true] at hs
      simp only [List.length_cons]
      exact Nat.succ_le_succ (ih ys hs.2)

theorem startsWith_getElem (t : List Char) :
    ∀ (s : List Char), startsWith t s = true → ∀ j, j < t.length → s[j]? = t[j]? := by
  induction t with
  | nil => intro s _ j hj; simp at hj
  | cons x xs ih =>
    intro s hs j hj
    match s with
    | [] => simp [startsWith] at hs
    | y :: ys =>
      simp only [startsWith, Bool.and_eq_true, beq_iff_eq] at hs
      match j with
      | 0 => simp [hs.1]
      | j + 1 =>
        simp only [List.getElem?_cons_succ]
        exact ih ys hs.2 j (Nat.lt_of_succ_lt_succ hj)

theorem mem_take_of_getElem (b : List Char) (k j : Nat) (d : Char)
    (hk : k < j) (h : b[k]? = some d) : d ∈ b.take j := by
  have : (b.take j)[k]? = some d := by
    rw [List.getElem?_take_of_lt hk, h]
  exact List.getElem?_mem this

theorem noOccScan_of_getElem (t : List Char) (j : Nat) (d : Char)
    (hj : t[j]? = some d) :
    ∀ (a b : List Char), (∀ c ∈ a, c ≠ d) → (∀ c ∈ b.take j, c ≠ d) →
      noOccScan t a b = true := by
  intro a
  induction a with
  | nil => intro b _ _; rfl
  | cons c a ih =>
    intro b ha hb
    simp only [noOccScan, Bool.and_eq_true, Bool.not_eq_true']
    constructor
    · by_contra hc
      rw [Bool.not_eq_false] at hc
      have hjt : j < t.length := by
        by_contra hlt
        rw [List.getElem?_eq_none (Nat.le_of_not_lt hlt)] at hj
        exact Option.noConfusion hj
      have hget : (c :: (a ++ b))[j]? = t[j]? := startsWith_getElem t _ hc j hjt
      rw [hj] at hget
      have hsplit : (c :: (a ++ b)) = (c :: a) ++ b := rfl
      rw [hsplit] at hget
      rw [List.getElem?_append] at hget
      by_cases hja : j < (c :: a).length
      · rw [if_pos hja] at hget
        have : d ∈ c :: a := List.getElem?_mem hget
        exact ha d this rfl
      · rw [if_neg hja] at hget
        have hle : (c :: a).length ≤ j := Nat.le_of_not_lt hja
        have hlt2 : j - (c :: a).length < j := by
          simp only [List.length_cons] at hle ⊢
          omega
        exact hb d (mem_take_of_getElem b _ j d hlt2 hget) rfl
    · exact ih b (fun x hx => ha x (List.mem_cons_of_mem c hx)) hb

theorem noOccScan_of_head (t0 : Char) (ts : List Char) (a b : List Char)
    (ha : ∀ c ∈ a, c ≠ t0) : noOccScan (t0 :: ts) a b = true := by
  apply noOccScan_of_getElem (t0 :: ts) 0 t0 (by simp) a b ha
  simp

theorem subTok_append_noOcc (t0 : Char) (ts : List Char) (p : Char → Bool) (repl : List Char) :
    ∀ (a b : List Char), noOccScan (t0 :: ts) a b = true →
      subTok t0 ts p repl (a ++ b) = a ++ subTok t0 ts p repl b := by
  intro a
  induction a with
  | nil => intro b _; rfl
  | cons c a ih =>
    intro b h
    simp only [noOccScan, Bool.and_eq_true, Bool.not_eq_true'] at h
    rw [List.cons_append, subTok_cons_skip t0 ts p repl c (a ++ b) h.1, ih b h.2]
    rfl

theorem noOccScan_nil_right (t : List Char) (c : Char) (cs : List Char) :
    noOccScan t (c :: cs) [] = (!startsWith t (c :: cs) && noOccScan t cs []) := by
  simp [noOccScan]

theorem subTok_eq_self (t0 : Char) (ts : List Char) (p : Char → Bool) (repl : List Char)
    (s : List Char) (h : noOccScan (t0 :: ts) s [] = true) :
    subTok t0 ts p repl s = s := by
  have := subTok_append_noOcc t0 ts p repl s [] h
  simpa [subTok_nil] using this

theorem containsTok_eq_false_of_noOcc (t0 : Char) (ts : List Char) :
    ∀ (s : List Char), noOccScan (t0 :: ts) s [] = true →
      containsTok (t0 :: ts) s = false := by
  intro s
  induction s with
  | nil => intro _; rfl
  | cons c cs ih =>
    intro h
    rw [noOccScan_nil_right] at h
    simp only [Bool.and_eq_true, Bool.not_eq_true'] at h
    simp only [containsTok, Bool.or_eq_false_iff]
    exact ⟨h.1, ih h.2⟩

theorem containsTok_append_of_right (t : List Char) (b : List Char)
    (h : containsTok t b = true) : ∀ a, containsTok t (a ++ b) = true := by
  intro a
  induction a with
  | nil => simpa using h
  | cons c a ih =>
    simp only [List.cons_append, containsTok, Bool.or_eq_true]
    exact Or.inr ih

theorem startsWith_self_append (t : List Char) : ∀ x, startsWith t (t ++ x) = true := by
  induction t with
  | nil => intro x; rfl
  | cons c cs ih => intro x; simp [startsWith, ih]

theorem containsTok_self_append (t0 : Char) (ts : List Char) (x : List Char) :
    containsTok (t0 :: ts) ((t0 :: ts) ++ x) = true := by
  simp only [List.cons_append, containsTok, Bool.or_eq_true]
  exact Or.inl (startsWith_self_append (t0 :: ts) x)

theorem takeWhile_append_of_all (p : Char → Bool) :
    ∀ (seg b : List Char), (∀ c ∈ seg, p c = true) →
      (seg ++ b).takeWhile p = seg ++ b.takeWhile p := by
  intro seg
  induction seg with
  | nil => intro b _; rfl
  | cons c cs ih =>
    intro b h
    have hc : p c = true := h c (List.mem_cons_self c cs)
    simp only [List.cons_append, List.takeWhile_cons, hc, if_true]
    rw [ih b (fun x hx => h x (List.mem_cons_of_mem c hx))]

theorem dropWhile_append_of_all (p : Char → Bool) :
    ∀ (seg b : List Char), (∀ c ∈ seg, p c = true) →
      (seg ++ b).dropWhile p = b.dropWhile p := by
  intro seg
  induction seg with
  | nil => intro b _; rfl
  | cons c cs ih =>
    intro b h
    have hc : p c = true := h c (List.mem_cons_self c cs)
    simp only [List.cons_append, List.dropWhile_cons, hc, if_true]
    exact ih b (fun x hx => h x (List.mem_cons_of_mem c hx))

theorem dropWhile_eq_self_of_takeWhile_nil (p : Char → Bool) (b : List Char)
    (h : b.takeWhile p = []) : b.dropWhile p = b := by
  match b with
  | [] => rfl
  | c :: cs =>
    rw [List.takeWhile_cons] at h
    by_cases hc : p c = true
    · rw [hc] at h; simp at h
    · rw [Bool.not_eq_true] at hc
      rw [List.dropWhile_cons, hc]
      simp

/-- At an actual occurrence of the token followed by a non-empty run of
`p`-characters (with the run maximal because `b` does not continue it),
`subTok` emits the replacement and continues after the run. -/
theorem subTok_tok_seg (t0 : Char) (ts : List Char) (p : Char → Bool) (repl : List Char)
    (seg b : List Char) (hseg : seg ≠ []) (hp : ∀ c ∈ seg, p c = true)
    (hb : b.takeWhile p = []) :
    subTok t0 ts p repl (t0 :: (ts ++ (seg ++ b))) = repl ++ subTok t0 ts p repl b := by
  rw [subTok_cons]
  have hsw : startsWith (t0 :: ts) (t0 :: (ts ++ (seg ++ b))) = true := by
    have := startsWith_self_append (t0 :: ts) (seg ++ b)
    simpa using this
  have hdropTok : (t0 :: (ts ++ (seg ++ b))).drop (ts.length + 1) = seg ++ b := by
    rw [show (t0 :: (ts ++ (seg ++ b))).drop (ts.length + 1)
        = (ts ++ (seg ++ b)).drop ts.length from rfl]
    rw [List.drop_left]
  have htw : ((t0 :: (ts ++ (seg ++ b))).drop (ts.length + 1)).takeWhile p = seg := by
    rw [hdropTok, takeWhile_append_of_all p seg b hp, hb, List.append_nil]
  have hdw : ((t0 :: (ts ++ (seg ++ b))).drop (ts.length + 1)).dropWhile p = b := by
    rw [hdropTok, dropWhile_append_of_all p seg b hp,
      dropWhile_eq_self_of_takeWhile_nil p b hb]
  rw [hsw, htw, hdw]
  have : (seg.isEmpty = false) := by
    cases seg with
    | nil => exact absurd rfl hseg
    | cons x xs => rfl
  rw [this]
  simp

/-- Master decomposition lemma: on a string of the shape
`pre ++ TOKEN ++ seg ++ post` where the token cannot occur inside `pre`,
`seg` is the non-empty maximal match of the character class, and the
token does not occur in `post` either, the substitution replaces exactly
the middle and leaves the rest intact. -/
theorem subTok_single (t0 : Char) (ts : List Char) (p : Char → Bool) (repl : List Char)
    (pre seg post : List Char)
    (hpre : noOccScan (t0 :: ts) pre (t0 :: (ts ++ (seg ++ post))) = true)
    (hseg : seg ≠ []) (hp : ∀ c ∈ seg, p c = true)
    (hpost1 : post.takeWhile p = [])
    (hpost2 : noOccScan (t0 :: ts) post [] = true) :
    subTok t0 ts p repl (pre ++ (t0 :: (ts ++ (seg ++ post)))) = pre ++ (repl ++ post) := by
  rw [subTok_append_noOcc t0 ts p repl pre _ hpre,
    subTok_tok_seg t0 ts p repl seg post hseg hp hpost1,
    subTok_eq_self t0 ts p repl post hpost2]

/-! ## Tokens and filename transforms of the renumbering engine

These definitions translate lines 296-342 and 349-375 of src/run.py.
Filenames are lists of characters; the literal tokens below are the
regex tokens of the source. -/

/-- The literal characters of "sub-". -/
def subPre : List Char := ['s', 'u', 'b', '-']

/-- The characters of the session token "_ses-" (regex `_ses-`). -/
def sesTag : List Char := ['_', 's', 'e', 's', '-']

/-- The session token without its leading underscore. -/
def sesTok : List Char := ['s', 'e', 's', '-']

/-- The characters of "_task-". -/
def taskTag : List Char := ['_', 't', 'a', 's', 'k', '-']

/-- The task regex token "task-" (note: no leading underscore, exactly as
in `re.sub(r'task-[^_]+', ...)` on line 338). -/
def taskTok : List Char := ['t', 'a', 's', 'k', '-']

/-- The task token without its leading character. -/
def taskTokTail : List Char := ['a', 's', 'k', '-']

/-- The characters of the run token "_run-". -/
def runTag : List Char := ['_', 'r', 'u', 'n', '-']

/-- The run token without its leading underscore. -/
def runTok : List Char := ['r', 'u', 'n', '-']

/-- The character class `[^_]` of the session and task regexes. -/
def notUnd (c : Char) : Bool := c != '_'

/-- Python's `str.zfill`: left-pad with zeros up to the given width,
never truncating. -/
def zfill (width : Nat) (ds : List Char) : List Char :=
  List.replicate (width - ds.length) '0' ++ ds

/-- The string `'_run-' + str(run).zfill(width)` built on lines 300, 307,
328, 357, 361, 365 and 370 of src/run.py. -/
def runStr (width run : Nat) : List Char :=
  runTag ++ zfill width (Nat.toDigits 10 run)

/-- The substitution `re.sub(r'_ses-[^_]+', repl, name)` used for
anatomical files (line 301/308), functional files with empty
replacement (line 331) and field-map files (line 374). -/
def sesSub (repl name : List Char) : List Char :=
  subTok '_' sesTok notUnd repl name

/-- The substitution `re.sub(r'_run-[\d]+', repl, name)` of line 333. -/
def runSub (repl name : List Char) : List Char :=
  subTok '_' runTok Char.isDigit repl name

/-- The substitution `re.sub(r'task-[^_]+', repl, name)` of line 338. -/
def taskSub (repl name : List Char) : List Char :=
  subTok 't' taskTokTail notUnd repl name

/-- Per-file functional rename, lines 328-338 of src/run.py: strip the
session token, then replace an existing run token or synthesize one by
rewriting the task token. -/
def funcRename (task : List Char) (width run : Nat) (name : List Char) : List Char :=
  if containsTok runTag (sesSub [] name) = true then
    runSub (runStr width run) (sesSub [] name)
  else
    taskSub (taskTok ++ task ++ runStr width run) (sesSub [] name)

/-- The run-index width decision of lines 317-322: `width = 3 if the
task's file count exceeds 100 else 2`. -/
def funcWidth (numTasks : Nat) : Nat :=
  if 100 < numTasks then 3 else 2

/-- Numbering loop skeleton shared by every category: apply `g` to run
numbers `r, r+1, ...` paired with the list elements in order, exactly
like the `run = 1 ... run += 1` loops of src/run.py. -/
def numberFrom (g : Nat → α → β) : Nat → List α → List β
  | _, [] => []
  | r, f :: fs => g r f :: numberFrom g (r + 1) fs

/-- The functional renumbering engine for one task, lines 316-340:
width from the task's own file count, run numbers from 1 in input
order. -/
def funcEngine (task : List Char) (files : List (List Char)) : List (List Char) :=
  numberFrom (funcRename task (funcWidth files.length)) 1 files

/-- A collected source file: absolute path plus basename, the two
attributes of pybids file records used by src/run.py. -/
structure SrcFile where
  path : List Char
  filename : List Char
deriving DecidableEq, Repr

/-- The anatomical renumbering loops of lines 297-310: fixed width 2,
session token replaced by the run token, run numbers from 1. -/
def anatEngine (files : List SrcFile) : List (List Char × List Char) :=
  numberFrom (fun run t => (t.path, sesSub (runStr 2 run) t.filename)) 1 files

theorem numberFrom_map (g : Nat → β → γ) (h : α → β) :
    ∀ (r : Nat) (l : List α),
      numberFrom g r (l.map h) = numberFrom (fun r x => g r (h x)) r l := by
  intro r l
  induction l generalizing r with
  | nil => rfl
  | cons x xs ih => simp only [List.map_cons, numberFrom, ih]

theorem numberFrom_congr (g g' : Nat → α → β) :
    ∀ (r : Nat) (l : List α), (∀ (n : Nat) (x : α), x ∈ l → g n x = g' n x) →
      numberFrom g r l = numberFrom g' r l := by
  intro r l
  induction l generalizing r with
  | nil => intro _; rfl
  | cons x xs ih =>
    intro h
    simp only [numberFrom]
    rw [h r x (List.mem_cons_self x xs),
      ih (r + 1) (fun n y hy => h n y (List.mem_cons_of_mem x hy))]

theorem numberFrom_length (g : Nat → α → β) :
    ∀ (r : Nat) (l : List α), (numberFrom g r l).length = l.length := by
  intro r l
  induction l generalizing r with
  | nil => rfl
  | cons x xs ih => simp only [numberFrom, List.length_cons, ih]

/-! ## Structured BIDS filenames

To state the renaming claims for every well-formed input, filenames are
quantified through a structured decomposition into their token segments;
`render` rebuilds the flat string the code actually operates on. -/

theorem startsWith_cons_self (x : Char) (xs ys : List Char) :
    startsWith (x :: xs) (x :: ys) = startsWith xs ys := by
  simp [startsWith]

theorem startsWith_cons_ne (x y : Char) (xs ys : List Char) (h : x ≠ y) :
    startsWith (x :: xs) (y :: ys) = false := by
  rw [show startsWith (x :: xs) (y :: ys) = ((x == y) && startsWith xs ys) from rfl,
    beq_eq_false_iff_ne.mpr h]
  rfl

theorem notUnd_eq_true (c : Char) : notUnd c = true ↔ c ≠ '_' := by
  simp [notUnd]

theorem ne_und_of_isDigit (c : Char) (h : c.isDigit = true) : c ≠ '_' := by
  intro e
  subst e
  exact absurd h (by decide)

/-- Structured functional filename
`sub-<sub>_ses-<ses>_task-<task>[_run-<run>]_<suffix>`. -/
structure FuncName where
  sub : List Char
  ses : List Char
  task : List Char
  run : Option (List Char)
  suffix : List Char
deriving DecidableEq, Repr

/-- The optional run segment of a structured functional filename. -/
def runPart : Option (List Char) → List Char
  | none => []
  | some r => runTag ++ r

/-- Flatten a structured functional filename to the string the code
sees. -/
def FuncName.render (n : FuncName) : List Char :=
  subPre ++ (n.sub ++ (sesTag ++ (n.ses ++ (taskTag ++ (n.task ++ (runPart n.run ++ ('_' :: n.suffix)))))))

/-- Well-formedness of a structured functional filename of the task
group `task`: entity labels are non-empty and free of the separator
characters, an explicit run index is a non-empty digit string, and the
suffix neither contains a separator nor starts like a session or run
token. -/
def FuncWF (task : List Char) (n : FuncName) : Prop :=
  n.task = task ∧
  (∀ c ∈ n.sub, c ≠ '_') ∧ (∀ c ∈ n.sub, c ≠ '-') ∧
  n.ses ≠ [] ∧ (∀ c ∈ n.ses, c ≠ '_') ∧
  n.task ≠ [] ∧ (∀ c ∈ n.task, c ≠ '_') ∧
  (∀ r, n.run = some r → r ≠ [] ∧ ∀ c ∈ r, c.isDigit = true) ∧
  (∀ c ∈ n.suffix, c ≠ '_') ∧ (∀ c ∈ n.suffix, c ≠ '-') ∧
  startsWith sesTok n.suffix = false ∧ startsWith runTok n.suffix = false

instance (task : List Char) (n : FuncName) : Decidable (FuncWF task n) := by
  unfold FuncWF
  infer_instance

/-- The destination filename the functional transform is expected to
produce: session segment gone, explicit run token of the given width and
run number after the task segment. -/
def renderOut (task : List Char) (width run : Nat) (n : FuncName) : List Char :=
  subPre ++ (n.sub ++ (taskTag ++ (task ++ (runStr width run ++ ('_' :: n.suffix)))))

theorem sesSub_structured (repl sb ses post : List Char)
    (hsub : ∀ c ∈ sb, c ≠ '_') (hses : ses ≠ []) (hses2 : ∀ c ∈ ses, c ≠ '_')
    (hpost1 : post.takeWhile notUnd = [])
    (hpost2 : noOccScan sesTag post [] = true) :
    sesSub repl (subPre ++ (sb ++ (sesTag ++ (ses ++ post)))) =
      subPre ++ (sb ++ (repl ++ post)) := by
  have hpre : noOccScan ('_' :: sesTok) (subPre ++ sb)
      ('_' :: (sesTok ++ (ses ++ post))) = true := by
    rw [noOccScan_append, Bool.and_eq_true]
    exact ⟨noOccScan_of_head '_' sesTok subPre _ (by decide),
      noOccScan_of_head '_' sesTok sb _ hsub⟩
  have hp : ∀ c ∈ ses, notUnd c = true := fun c hc => (notUnd_eq_true c).mpr (hses2 c hc)
  have hpost2' : noOccScan ('_' :: sesTok) post [] = true := hpost2
  have key := subTok_single '_' sesTok notUnd repl (subPre ++ sb) ses post hpre hses hp
    hpost1 hpost2'
  calc sesSub repl (subPre ++ (sb ++ (sesTag ++ (ses ++ post))))
      = subTok '_' sesTok notUnd repl ((subPre ++ sb) ++ ('_' :: (sesTok ++ (ses ++ post)))) := by
        rw [sesSub]
        congr 1
    _ = (subPre ++ sb) ++ (repl ++ post) := key
    _ = subPre ++ (sb ++ (repl ++ post)) := by simp [List.append_assoc]

theorem noOccScan_append_nil (t a1 a2 : List Char) :
    noOccScan t (a1 ++ a2) [] = (noOccScan t a1 a2 && noOccScan t a2 []) := by
  rw [noOccScan_append, List.append_nil]

theorem startsWith_cons_cons_ne (x x1 : Char) (xs : List Char) (y : Char) (ys : List Char)
    (h : x1 ≠ y) : startsWith (x :: (x1 :: xs)) (x :: (y :: ys)) = false := by
  rw [startsWith_cons_self]
  exact startsWith_cons_ne x1 y xs ys h

theorem not_startsWith_sesTag_t (y : List Char) :
    startsWith sesTag ('_' :: ('t' :: y)) = false :=
  startsWith_cons_cons_ne '_' 's' ['e', 's', '-'] 't' y (by decide)

theorem not_startsWith_sesTag_r (y : List Char) :
    startsWith sesTag ('_' :: ('r' :: y)) = false :=
  startsWith_cons_cons_ne '_' 's' ['e', 's', '-'] 'r' y (by decide)

/-- The tail that follows the session segment of a functional filename
with an explicit run index contains no further session token. -/
theorem noOcc_sesTag_tail_some (task rr suffix : List Char)
    (htask : ∀ c ∈ task, c ≠ '_') (hrr : ∀ c ∈ rr, c.isDigit = true)
    (hsuf : ∀ c ∈ suffix, c ≠ '_') (hsw : startsWith sesTok suffix = false) :
    noOccScan sesTag (taskTag ++ (task ++ (runTag ++ (rr ++ ('_' :: suffix))))) [] = true := by
  show noOccScan sesTag
    (['_'] ++ (taskTok ++ (task ++ (['_'] ++ (runTok ++ (rr ++ (['_'] ++ suffix))))))) [] = true
  rw [noOccScan_append_nil, Bool.and_eq_true]
  constructor
  · rw [noOccScan_singleton]
    rw [show (taskTok ++ (task ++ (['_'] ++ (runTok ++ (rr ++ (['_'] ++ suffix))))) : List Char)
      = 't' :: (taskTokTail ++ (task ++ (['_'] ++ (runTok ++ (rr ++ (['_'] ++ suffix)))))) from rfl]
    rw [not_startsWith_sesTag_t]
    rfl
  rw [noOccScan_append_nil, Bool.and_eq_true]
  constructor
  · exact noOccScan_of_head '_' sesTok taskTok _ (by decide)
  rw [noOccScan_append_nil, Bool.and_eq_true]
  constructor
  · exact noOccScan_of_head '_' sesTok task _ htask
  rw [noOccScan_append_nil, Bool.and_eq_true]
  constructor
  · rw [noOccScan_singleton]
    rw [show (runTok ++ (rr ++ (['_'] ++ suffix)) : List Char)
      = 'r' :: (['u', 'n', '-'] ++ (rr ++ (['_'] ++ suffix))) from rfl]
    rw [not_startsWith_sesTag_r]
    rfl
  rw [noOccScan_append_nil, Bool.and_eq_true]
  constructor
  · exact noOccScan_of_head '_' sesTok runTok _ (by decide)
  rw [noOccScan_append_nil, Bool.and_eq_true]
  constructor
  · exact noOccScan_of_head '_' sesTok rr _
      (fun c hc => ne_und_of_isDigit c (hrr c hc))
  rw [noOccScan_append_nil, Bool.and_eq_true]
  constructor
  · rw [noOccScan_singleton]
    rw [show startsWith sesTag ('_' :: suffix) = startsWith sesTok suffix from
      startsWith_cons_self '_' sesTok suffix, hsw]
    rfl
  · exact noOccScan_of_head '_' sesTok suffix _ hsuf

/-- The tail that follows the session segment of a functional filename
without a run index contains no further session token. -/
theorem noOcc_sesTag_tail_none (task suffix : List Char)
    (htask : ∀ c ∈ task, c ≠ '_')
    (hsuf : ∀ c ∈ suffix, c ≠ '_') (hsw : startsWith sesTok suffix = false) :
    noOccScan sesTag (taskTag ++ (task ++ ('_' :: suffix))) [] = true := by
  show noOccScan sesTag (['_'] ++ (taskTok ++ (task ++ (['_'] ++ suffix)))) [] = true
  rw [noOccScan_append_nil, Bool.and_eq_true]
  constructor
  · rw [noOccScan_singleton]
    rw [show (taskTok ++ (task ++ (['_'] ++ suffix)) : List Char)
      = 't' :: (taskTokTail ++ (task ++ (['_'] ++ suffix))) from rfl]
    rw [not_startsWith_sesTag_t]
    rfl
  rw [noOccScan_append_nil, Bool.and_eq_true]
  constructor
  · exact noOccScan_of_head '_' sesTok taskTok _ (by decide)
  rw [noOccScan_append_nil, Bool.and_eq_true]
  constructor
  · exact noOccScan_of_head '_' sesTok task _ htask
  rw [noOccScan_append_nil, Bool.and_eq_true]
  constructor
  · rw [noOccScan_singleton]
    rw [show startsWith sesTag ('_' :: suffix) = startsWith sesTok suffix from
      startsWith_cons_self '_' sesTok suffix, hsw]
    rfl
  · exact noOccScan_of_head '_' sesTok suffix _ hsuf

theorem not_startsWith_runTag_t (y : List Char) :
    startsWith runTag ('_' :: ('t' :: y)) = false :=
  startsWith_cons_cons_ne '_' 'r' ['u', 'n', '-'] 't' y (by decide)

theorem not_startsWith_runTok_t (y : List Char) :
    startsWith runTok ('t' :: y) = false :=
  startsWith_cons_ne 'r' 't' ['u', 'n', '-'] y (by decide)

/-- Replacing the run token of a session-stripped functional filename
that carries an explicit run index. -/
theorem runSub_structured (repl sb task rr suffix : List Char)
    (hsub : ∀ c ∈ sb, c ≠ '_') (htask : ∀ c ∈ task, c ≠ '_')
    (hrne : rr ≠ []) (hrr : ∀ c ∈ rr, c.isDigit = true)
    (hsuf : ∀ c ∈ suffix, c ≠ '_') (hsw : startsWith runTok suffix = false) :
    runSub repl (subPre ++ (sb ++ (taskTag ++ (task ++ (runTag ++ (rr ++ ('_' :: suffix))))))) =
      subPre ++ (sb ++ (taskTag ++ (task ++ (repl ++ ('_' :: suffix))))) := by
  have hpre : noOccScan ('_' :: runTok) (subPre ++ (sb ++ (taskTag ++ task)))
      ('_' :: (runTok ++ (rr ++ ('_' :: suffix)))) = true := by
    rw [noOccScan_append, Bool.and_eq_true]
    constructor
    · exact noOccScan_of_head '_' runTok subPre _ (by decide)
    rw [noOccScan_append, Bool.and_eq_true]
    constructor
    · exact noOccScan_of_head '_' runTok sb _ hsub
    show noOccScan ('_' :: runTok) (['_'] ++ (taskTok ++ task)) _ = true
    rw [noOccScan_append, Bool.and_eq_true]
    constructor
    · rw [noOccScan_singleton]
      rw [show ((taskTok ++ task) ++ ('_' :: (runTok ++ (rr ++ ('_' :: suffix)))) : List Char)
        = 't' :: (taskTokTail ++ (task ++ ('_' :: (runTok ++ (rr ++ ('_' :: suffix)))))) from rfl]
      rw [startsWith_cons_self, not_startsWith_runTok_t]
      rfl
    rw [noOccScan_append, Bool.and_eq_true]
    constructor
    · exact noOccScan_of_head '_' runTok taskTok _ (by decide)
    · exact noOccScan_of_head '_' runTok task _ htask
  have hpost1 : ('_' :: suffix).takeWhile Char.isDigit = [] := by
    rw [List.takeWhile_cons, show Char.isDigit '_' = false from by decide]
    rfl
  have hpost2 : noOccScan ('_' :: runTok) ('_' :: suffix) [] = true := by
    show noOccScan ('_' :: runTok) (['_'] ++ suffix) [] = true
    rw [noOccScan_append_nil, Bool.and_eq_true]
    constructor
    · rw [noOccScan_singleton, startsWith_cons_self, hsw]
      rfl
    · exact noOccScan_of_head '_' runTok suffix _ hsuf
  have e : subPre ++ (sb ++ (taskTag ++ (task ++ (runTag ++ (rr ++ ('_' :: suffix)))))) =
      (subPre ++ (sb ++ (taskTag ++ task))) ++ ('_' :: (runTok ++ (rr ++ ('_' :: suffix)))) := by
    rw [show (runTag : List Char) = '_' :: runTok from rfl]
    simp only [List.append_assoc, List.cons_append]
  calc runSub repl (subPre ++ (sb ++ (taskTag ++ (task ++ (runTag ++ (rr ++ ('_' :: suffix)))))))
      = subTok '_' runTok Char.isDigit repl
          ((subPre ++ (sb ++ (taskTag ++ task))) ++ ('_' :: (runTok ++ (rr ++ ('_' :: suffix))))) := by
        rw [runSub, e]
    _ = (subPre ++ (sb ++ (taskTag ++ task))) ++ (repl ++ ('_' :: suffix)) :=
        subTok_single '_' runTok Char.isDigit repl _ rr ('_' :: suffix) hpre hrne hrr hpost1 hpost2
    _ = subPre ++ (sb ++ (taskTag ++ (task ++ (repl ++ ('_' :: suffix))))) := by
        simp only [List.append_assoc]

/-- Synthesizing a run token by rewriting the task segment of a
session-stripped functional filename that lacks a run index. -/
theorem taskSub_structured (repl sb task suffix : List Char)
    (hsub : ∀ c ∈ sb, c ≠ '_') (hsubd : ∀ c ∈ sb, c ≠ '-')
    (htne : task ≠ []) (htask : ∀ c ∈ task, c ≠ '_')
    (hsuf : ∀ c ∈ suffix, c ≠ '_') (hsufd : ∀ c ∈ suffix, c ≠ '-') :
    taskSub repl (subPre ++ (sb ++ (taskTag ++ (task ++ ('_' :: suffix))))) =
      subPre ++ (sb ++ ('_' :: (repl ++ ('_' :: suffix)))) := by
  have hpre : noOccScan ('t' :: taskTokTail) (subPre ++ (sb ++ ['_']))
      ('t' :: (taskTokTail ++ (task ++ ('_' :: suffix)))) = true := by
    rw [noOccScan_append, Bool.and_eq_true]
    constructor
    · exact noOccScan_of_head 't' taskTokTail subPre _ (by decide)
    rw [noOccScan_append, Bool.and_eq_true]
    constructor
    · refine noOccScan_of_getElem ('t' :: taskTokTail) 4 '-' (by rfl) sb _ hsubd ?_
      rw [show (List.take 4 (['_'] ++ ('t' :: (taskTokTail ++ (task ++ ('_' :: suffix)))))
        : List Char) = ['_', 't', 'a', 's'] from rfl]
      decide
    · rw [noOccScan_singleton]
      rw [startsWith_cons_ne 't' '_' _ _ (by decide)]
      rfl
  have hpost1 : ('_' :: suffix).takeWhile notUnd = [] := by
    rw [List.takeWhile_cons, show notUnd '_' = false from by decide]
    rfl
  have hpost2 : noOccScan ('t' :: taskTokTail) ('_' :: suffix) [] = true := by
    show noOccScan ('t' :: taskTokTail) (['_'] ++ suffix) [] = true
    rw [noOccScan_append_nil, Bool.and_eq_true]
    constructor
    · rw [noOccScan_singleton, startsWith_cons_ne 't' '_' _ _ (by decide)]
      rfl
    · refine noOccScan_of_getElem ('t' :: taskTokTail) 4 '-' (by rfl) suffix [] hsufd ?_
      intro c hc
      simp at hc
  have e : subPre ++ (sb ++ (taskTag ++ (task ++ ('_' :: suffix)))) =
      (subPre ++ (sb ++ ['_'])) ++ ('t' :: (taskTokTail ++ (task ++ ('_' :: suffix)))) := by
    rw [show (taskTag : List Char) = '_' :: ('t' :: taskTokTail) from rfl]
    simp only [List.append_assoc, List.cons_append, List.singleton_append, List.nil_append]
  have hp : ∀ c ∈ task, notUnd c = true := fun c hc => (notUnd_eq_true c).mpr (htask c hc)
  calc taskSub repl (subPre ++ (sb ++ (taskTag ++ (task ++ ('_' :: suffix)))))
      = subTok 't' taskTokTail notUnd repl
          ((subPre ++ (sb ++ ['_'])) ++ ('t' :: (taskTokTail ++ (task ++ ('_' :: suffix))))) := by
        rw [taskSub, e]
    _ = (subPre ++ (sb ++ ['_'])) ++ (repl ++ ('_' :: suffix)) :=
        subTok_single 't' taskTokTail notUnd repl _ task ('_' :: suffix) hpre htne hp hpost1 hpost2
    _ = subPre ++ (sb ++ ('_' :: (repl ++ ('_' :: suffix)))) := by
        simp only [List.append_assoc, List.singleton_append]

/-- A session-stripped functional filename that carries an explicit run
segment passes the `'_run-' in name` test of line 332. -/
theorem containsRun_some (sb task rr suffix : List Char) :
    containsTok runTag
      (subPre ++ (sb ++ (taskTag ++ (task ++ (runTag ++ (rr ++ ('_' :: suffix))))))) = true := by
  have h0 : containsTok runTag (runTag ++ (rr ++ ('_' :: suffix))) = true :=
    containsTok_self_append '_' runTok _
  have h1 := containsTok_append_of_right runTag _ h0 task
  have h2 := containsTok_append_of_right runTag _ h1 taskTag
  have h3 := containsTok_append_of_right runTag _ h2 sb
  exact containsTok_append_of_right runTag _ h3 subPre

/-- A session-stripped functional filename without a run segment fails
the `'_run-' in name` test of line 332. -/
theorem containsRun_none (sb task suffix : List Char)
    (hsub : ∀ c ∈ sb, c ≠ '_') (htask : ∀ c ∈ task, c ≠ '_')
    (hsuf : ∀ c ∈ suffix, c ≠ '_') (hsw : startsWith runTok suffix = false) :
    containsTok runTag
      (subPre ++ (sb ++ (taskTag ++ (task ++ ('_' :: suffix))))) = false := by
  apply containsTok_eq_false_of_noOcc
  rw [noOccScan_append_nil, Bool.and_eq_true]
  constructor
  · exact noOccScan_of_head '_' runTok subPre _ (by decide)
  rw [noOccScan_append_nil, Bool.and_eq_true]
  constructor
  · exact noOccScan_of_head '_' runTok sb _ hsub
  show noOccScan ('_' :: runTok) (['_'] ++ (taskTok ++ (task ++ (['_'] ++ suffix)))) [] = true
  rw [noOccScan_append_nil, Bool.and_eq_true]
  constructor
  · rw [noOccScan_singleton]
    rw [show (taskTok ++ (task ++ (['_'] ++ suffix)) : List Char)
      = 't' :: (taskTokTail ++ (task ++ (['_'] ++ suffix))) from rfl]
    rw [startsWith_cons_self, not_startsWith_runTok_t]
    rfl
  rw [noOccScan_append_nil, Bool.and_eq_true]
  constructor
  · exact noOccScan_of_head '_' runTok taskTok _ (by decide)
  rw [noOccScan_append_nil, Bool.and_eq_true]
  constructor
  · exact noOccScan_of_head '_' runTok task _ htask
  rw [noOccScan_append_nil, Bool.and_eq_true]
  constructor
  · rw [noOccScan_singleton, startsWith_cons_self, hsw]
    rfl
  · exact noOccScan_of_head '_' runTok suffix _ hsuf

/-- The functional per-file transform of lines 331-338 maps a
well-formed structured functional filename to the expected destination
name: session segment removed, run token replaced or synthesized with
the given width and run number, never duplicated. -/
theorem funcRename_render (task : List Char) (w r : Nat) (n : FuncName)
    (h : FuncWF task n) :
    funcRename task w r n.render = renderOut task w r n := by
  obtain ⟨htaskeq, hsub, hsubd, hsesne, hses, htne, htask, hrun, hsuf, hsufd, hsws, hswr⟩ := h
  cases hr : n.run with
  | some rr =>
    obtain ⟨hrne, hrdig⟩ := hrun rr hr
    have hstrip : sesSub [] n.render =
        subPre ++ (n.sub ++ (taskTag ++ (n.task ++ (runTag ++ (rr ++ ('_' :: n.suffix)))))) := by
      have e : n.render = subPre ++ (n.sub ++ (sesTag ++ (n.ses ++
          (taskTag ++ (n.task ++ (runTag ++ (rr ++ ('_' :: n.suffix)))))))) := by
        rw [FuncName.render, hr]
        simp only [runPart, List.append_assoc]
      rw [e, sesSub_structured [] n.sub n.ses
        (taskTag ++ (n.task ++ (runTag ++ (rr ++ ('_' :: n.suffix))))) hsub hsesne hses
        (by rfl) (noOcc_sesTag_tail_some n.task rr n.suffix htask hrdig hsuf hsws)]
      simp only [List.nil_append]
    rw [funcRename, hstrip,
      if_pos (containsRun_some n.sub n.task rr n.suffix),
      runSub_structured (runStr w r) n.sub n.task rr n.suffix hsub htask hrne hrdig hsuf hswr,
      renderOut, htaskeq]
  | none =>
    have hstrip : sesSub [] n.render =
        subPre ++ (n.sub ++ (taskTag ++ (n.task ++ ('_' :: n.suffix)))) := by
      have e : n.render = subPre ++ (n.sub ++ (sesTag ++ (n.ses ++
          (taskTag ++ (n.task ++ ('_' :: n.suffix)))))) := by
        rw [FuncName.render, hr]
        simp only [runPart, List.nil_append]
      rw [e, sesSub_structured [] n.sub n.ses
        (taskTag ++ (n.task ++ ('_' :: n.suffix))) hsub hsesne hses
        (by rfl) (noOcc_sesTag_tail_none n.task n.suffix htask hsuf hsws)]
      simp only [List.nil_append]
    rw [funcRename, hstrip,
      if_neg (by rw [containsRun_none n.sub n.task n.suffix hsub htask hsuf hswr]; simp),
      taskSub_structured (taskTok ++ task ++ runStr w r) n.sub n.task n.suffix
        hsub hsubd htne htask hsuf hsufd,
      renderOut, show (taskTag : List Char) = '_' :: taskTok from rfl]
    simp only [List.append_assoc, List.cons_append]

/-! ## Materializer metadata model

`make_unisession_files` (lines 142-174 of src/run.py) parses the source
.json into a dict, runs `json_data.update({'SourceFile': src_nii})` and
writes the result.  A parsed JSON object is modelled extensionally as a
partial map from field names to (serialized) field values. -/

/-- A parsed JSON object: field name to serialized field value. -/
def Meta : Type := List Char → Option (List Char)

/-- The provenance field name injected on line 161 of src/run.py. -/
def sourceFileKey : List Char := ['S', 'o', 'u', 'r', 'c', 'e', 'F', 'i', 'l', 'e']

/-- The cross-reference field name mentioned in the module docstring and
in the TODO of line 377 of src/run.py. -/
def intendedForKey : List Char := ['I', 'n', 't', 'e', 'n', 'd', 'e', 'd', 'F', 'o', 'r']

/-- The metadata written for a destination file:
`json_data.update({'SourceFile': src_nii})` of line 161 — a pointwise
override of the single provenance key. -/
def makeUnisessionJson (src_nii : List Char) (json_data : Meta) : Meta :=
  fun k => if k = sourceFileKey then some src_nii else json_data k

/-! ## Field-map classification and renumbering (lines 345-375)

Each field-map file carries an optional `dir` entity.  The loop
classifies by `f.get_entities().get('dir', 'NODIR').upper()` into three
accumulating lists (`pas`, `aps`, `gen_fmaps`), numbering each
independently by the list's length after appending. -/

/-- Python `str.upper` restricted to the characters of entity values. -/
def upperStr (s : List Char) : List Char := s.map Char.toUpper

/-- The literal "PA". -/
def paChars : List Char := ['P', 'A']

/-- The literal "AP". -/
def apChars : List Char := ['A', 'P']

/-- The literal "NODIR", the default for a missing `dir` entity. -/
def nodirChars : List Char := ['N', 'O', 'D', 'I', 'R']

/-- A collected field-map file: optional `dir` entity value, absolute
path and basename. -/
structure FmapSrc where
  dir : Option (List Char)
  path : List Char
  filename : List Char
deriving DecidableEq, Repr

/-- Line 354: `direct = f.get_entities().get('dir', 'NODIR').upper()`. -/
def dirOf (f : FmapSrc) : List Char := upperStr (f.dir.getD nodirChars)

/-- The three field-map sub-groups. -/
inductive FmapGroup | pa | ap | generic
deriving DecidableEq, Repr

/-- Classification of a `dir` entity value: the branch structure of
lines 355-370. -/
def classifyDir (dir : Option (List Char)) : FmapGroup :=
  if upperStr (dir.getD nodirChars) = paChars then FmapGroup.pa
  else if upperStr (dir.getD nodirChars) = apChars then FmapGroup.ap
  else FmapGroup.generic

/-- The loop state of lines 349-375: the three accumulator lists, the
(source path, destination filename) pairs passed to
`make_unisession_files` in order, and the warned-about direction
values. -/
structure FmapAcc where
  gen_fmaps : List FmapSrc
  aps : List FmapSrc
  pas : List FmapSrc
  outs : List (List Char × List Char)
  warns : List (List Char)
deriving DecidableEq, Repr

/-- One iteration of the field-map loop (lines 353-375). -/
def fmapStep (st : FmapAcc) (f : FmapSrc) : FmapAcc :=
  if dirOf f = paChars then
    { st with
      pas := st.pas ++ [f]
      outs := st.outs ++ [(f.path, sesSub (runStr 2 (st.pas ++ [f]).length) f.filename)] }
  else if dirOf f = apChars then
    { st with
      aps := st.aps ++ [f]
      outs := st.outs ++ [(f.path, sesSub (runStr 2 (st.aps ++ [f]).length) f.filename)] }
  else if dirOf f = nodirChars then
    { st with
      gen_fmaps := st.gen_fmaps ++ [f]
      outs := st.outs ++ [(f.path, sesSub (runStr 2 (st.gen_fmaps ++ [f]).length) f.filename)] }
  else
    { st with
      gen_fmaps := st.gen_fmaps ++ [f]
      warns := st.warns ++ [dirOf f]
      outs := st.outs ++ [(f.path, sesSub (runStr 2 (st.gen_fmaps ++ [f]).length) f.filename)] }

/-- The whole field-map loop, from empty accumulators. -/
def fmapEngine (files : List FmapSrc) : FmapAcc :=
  files.foldl fmapStep ⟨[], [], [], [], []⟩

/-- Specification of the loop's output stream as a function of the
three counters at entry. -/
def fmapOutsFrom (g a p : Nat) : List FmapSrc → List (List Char × List Char)
  | [] => []
  | f :: fs =>
    if dirOf f = paChars then
      (f.path, sesSub (runStr 2 (p + 1)) f.filename) :: fmapOutsFrom g a (p + 1) fs
    else if dirOf f = apChars then
      (f.path, sesSub (runStr 2 (a + 1)) f.filename) :: fmapOutsFrom g (a + 1) p fs
    else
      (f.path, sesSub (runStr 2 (g + 1)) f.filename) :: fmapOutsFrom (g + 1) a p fs

/-- Whether a direction value is warned about on line 368. -/
def unrecognizedDir (f : FmapSrc) : Bool :=
  decide (dirOf f ≠ paChars ∧ dirOf f ≠ apChars ∧ dirOf f ≠ nodirChars)

theorem fmap_loop_spec :
    ∀ (files : List FmapSrc) (st : FmapAcc),
      (files.foldl fmapStep st).pas =
        st.pas ++ files.filter (fun f => decide (dirOf f = paChars)) ∧
      (files.foldl fmapStep st).aps =
        st.aps ++ files.filter (fun f => decide (dirOf f = apChars)) ∧
      (files.foldl fmapStep st).gen_fmaps =
        st.gen_fmaps ++ files.filter (fun f => decide (dirOf f ≠ paChars ∧ dirOf f ≠ apChars)) ∧
      (files.foldl fmapStep st).warns =
        st.warns ++ (files.filter unrecognizedDir).map dirOf ∧
      (files.foldl fmapStep st).outs =
        st.outs ++ fmapOutsFrom st.gen_fmaps.length st.aps.length st.pas.length files := by
  intro files
  induction files with
  | nil =>
    intro st
    simp [List.filter, fmapOutsFrom]
  | cons f fs ih =>
    intro st
    by_cases hpa : dirOf f = paChars
    · have hap : ¬ dirOf f = apChars := by rw [hpa]; decide
      have hstep : fmapStep st f = { st with
          pas := st.pas ++ [f]
          outs := st.outs ++ [(f.path, sesSub (runStr 2 (st.pas ++ [f]).length) f.filename)] } := by
        rw [fmapStep, if_pos hpa]
      have hur : unrecognizedDir f = false := by
        simp [unrecognizedDir, hpa]
      obtain ⟨h1, h2, h3, h4, h5⟩ := ih (fmapStep st f)
      rw [List.foldl_cons]
      refine ⟨?_, ?_, ?_, ?_, ?_⟩
      · rw [h1, hstep]
        simp [List.filter_cons, hpa, hap, List.append_assoc]
      · rw [h2, hstep]
        simp only [List.filter_cons, hpa]
        rw [if_neg (by decide : ¬ (decide (paChars = apChars) = true))]
      · rw [h3, hstep]
        simp [List.filter_cons, hpa, hap]
      · rw [h4, hstep, List.filter_cons, hur]
        simp
      · rw [h5, hstep]
        simp only [fmapOutsFrom, if_pos hpa, List.length_append, List.length_cons,
          List.length_nil, List.append_assoc, List.singleton_append]
    · by_cases hap : dirOf f = apChars
      · have hstep : fmapStep st f = { st with
            aps := st.aps ++ [f]
            outs := st.outs ++ [(f.path, sesSub (runStr 2 (st.aps ++ [f]).length) f.filename)] } := by
          rw [fmapStep, if_neg hpa, if_pos hap]
        have hur : unrecognizedDir f = false := by
          simp [unrecognizedDir, hap]
        obtain ⟨h1, h2, h3, h4, h5⟩ := ih (fmapStep st f)
        rw [List.foldl_cons]
        refine ⟨?_, ?_, ?_, ?_, ?_⟩
        · rw [h1, hstep]
          simp only [List.filter_cons, hap]
          rw [if_neg (by decide : ¬ (decide (apChars = paChars) = true))]
        · rw [h2, hstep]
          simp [List.filter_cons, hpa, hap, List.append_assoc]
        · rw [h3, hstep]
          simp [List.filter_cons, hpa, hap]
        · rw [h4, hstep, List.filter_cons, hur]
          simp
        · rw [h5, hstep]
          simp only [fmapOutsFrom, if_neg hpa, if_pos hap, List.length_append,
            List.length_cons, List.length_nil, List.append_assoc, List.singleton_append]
      · by_cases hnd : dirOf f = nodirChars
        · have hstep : fmapStep st f = { st with
              gen_fmaps := st.gen_fmaps ++ [f]
              outs := st.outs ++
                [(f.path, sesSub (runStr 2 (st.gen_fmaps ++ [f]).length) f.filename)] } := by
            rw [fmapStep, if_neg hpa, if_neg hap, if_pos hnd]
          have hur : unrecognizedDir f = false := by
            simp [unrecognizedDir, hnd]
          obtain ⟨h1, h2, h3, h4, h5⟩ := ih (fmapStep st f)
          rw [List.foldl_cons]
          refine ⟨?_, ?_, ?_, ?_, ?_⟩
          · rw [h1, hstep]
            simp [List.filter_cons, hpa, hap]
          · rw [h2, hstep]
            simp [List.filter_cons, hpa, hap]
          · rw [h3, hstep]
            simp [List.filter_cons, hpa, hap, List.append_assoc]
          · rw [h4, hstep, List.filter_cons, hur]
            simp
          · rw [h5, hstep]
            simp only [fmapOutsFrom, if_neg hpa, if_neg hap, List.length_append,
              List.length_cons, List.length_nil, List.append_assoc, List.singleton_append]
        · have hstep : fmapStep st f = { st with
              gen_fmaps := st.gen_fmaps ++ [f]
              warns := st.warns ++ [dirOf f]
              outs := st.outs ++
                [(f.path, sesSub (runStr 2 (st.gen_fmaps ++ [f]).length) f.filename)] } := by
            rw [fmapStep, if_neg hpa, if_neg hap, if_neg hnd]
          have hur : unrecognizedDir f = true := by
            simp [unrecognizedDir, hpa, hap, hnd]
          obtain ⟨h1, h2, h3, h4, h5⟩ := ih (fmapStep st f)
          rw [List.foldl_cons]
          refine ⟨?_, ?_, ?_, ?_, ?_⟩
          · rw [h1, hstep]
            simp [List.filter_cons, hpa, hap]
          · rw [h2, hstep]
            simp [List.filter_cons, hpa, hap]
          · rw [h3, hstep]
            simp [List.filter_cons, hpa, hap, List.append_assoc]
          · rw [h4, hstep, List.filter_cons, hur]
            simp [List.append_assoc]
          · rw [h5, hstep]
            simp only [fmapOutsFrom, if_neg hpa, if_neg hap, List.length_append,
              List.length_cons, List.length_nil, List.append_assoc, List.singleton_append]

/-- Counter from which the next run number of a sub-group is drawn. -/
def groupStart : FmapGroup → Nat → Nat → Nat → Nat
  | FmapGroup.generic, gc, _, _ => gc
  | FmapGroup.ap, _, ac, _ => ac
  | FmapGroup.pa, _, _, pc => pc

theorem fmap_group_outs (g : FmapGroup) :
    ∀ (files : List FmapSrc) (gc ac pc : Nat),
      ((files.zip (fmapOutsFrom gc ac pc files)).filter
          (fun pr => decide (classifyDir pr.1.dir = g))).map Prod.snd =
        numberFrom (fun r f => (f.path, sesSub (runStr 2 r) f.filename))
          (groupStart g gc ac pc + 1)
          (files.filter (fun f => decide (classifyDir f.dir = g))) := by
  intro files
  induction files with
  | nil => intro gc ac pc; rfl
  | cons f fs ih =>
    intro gc ac pc
    by_cases hpa : dirOf f = paChars
    · have hcl : classifyDir f.dir = FmapGroup.pa := by
        rw [classifyDir, if_pos (show upperStr (f.dir.getD nodirChars) = paChars from hpa)]
      rw [show fmapOutsFrom gc ac pc (f :: fs) =
          (f.path, sesSub (runStr 2 (pc + 1)) f.filename) :: fmapOutsFrom gc ac (pc + 1) fs from by
        rw [fmapOutsFrom, if_pos hpa]]
      rw [List.zip_cons_cons, List.filter_cons, List.filter_cons]
      simp only [hcl]
      cases g with
      | pa =>
        rw [if_pos (by decide), if_pos (by decide), List.map_cons, ih gc ac (pc + 1)]
        rw [show numberFrom (fun r f => (f.path, sesSub (runStr 2 r) f.filename))
            (groupStart FmapGroup.pa gc ac pc + 1)
            (f :: fs.filter (fun f => decide (classifyDir f.dir = FmapGroup.pa))) =
          (f.path, sesSub (runStr 2 (groupStart FmapGroup.pa gc ac pc + 1)) f.filename) ::
            numberFrom (fun r f => (f.path, sesSub (runStr 2 r) f.filename))
              (groupStart FmapGroup.pa gc ac pc + 1 + 1)
              (fs.filter (fun f => decide (classifyDir f.dir = FmapGroup.pa))) from rfl]
        rfl
      | ap =>
        rw [if_neg (by decide), if_neg (by decide), ih gc ac (pc + 1)]
        rfl
      | generic =>
        rw [if_neg (by decide), if_neg (by decide), ih gc ac (pc + 1)]
        rfl
    · by_cases hap : dirOf f = apChars
      · have hcl : classifyDir f.dir = FmapGroup.ap := by
          rw [classifyDir, if_neg (show ¬ upperStr (f.dir.getD nodirChars) = paChars from hpa),
            if_pos (show upperStr (f.dir.getD nodirChars) = apChars from hap)]
        rw [show fmapOutsFrom gc ac pc (f :: fs) =
            (f.path, sesSub (runStr 2 (ac + 1)) f.filename) :: fmapOutsFrom gc (ac + 1) pc fs from by
          rw [fmapOutsFrom, if_neg hpa, if_pos hap]]
        rw [List.zip_cons_cons, List.filter_cons, List.filter_cons]
        simp only [hcl]
        cases g with
        | pa =>
          rw [if_neg (by decide), if_neg (by decide), ih gc (ac + 1) pc]
          rfl
        | ap =>
          rw [if_pos (by decide), if_pos (by decide), List.map_cons, ih gc (ac + 1) pc]
          rfl
        | generic =>
          rw [if_neg (by decide), if_neg (by decide), ih gc (ac + 1) pc]
          rfl
      · have hcl : classifyDir f.dir = FmapGroup.generic := by
          rw [classifyDir, if_neg (show ¬ upperStr (f.dir.getD nodirChars) = paChars from hpa),
            if_neg (show ¬ upperStr (f.dir.getD nodirChars) = apChars from hap)]
        rw [show fmapOutsFrom gc ac pc (f :: fs) =
            (f.path, sesSub (runStr 2 (gc + 1)) f.filename) :: fmapOutsFrom (gc + 1) ac pc fs from by
          rw [fmapOutsFrom, if_neg hpa, if_neg hap]]
        rw [List.zip_cons_cons, List.filter_cons, List.filter_cons]
        simp only [hcl]
        cases g with
        | pa =>
          rw [if_neg (by decide), if_neg (by decide), ih (gc + 1) ac pc]
          rfl
        | ap =>
          rw [if_neg (by decide), if_neg (by decide), ih (gc + 1) ac pc]
          rfl
        | generic =>
          rw [if_pos (by decide), if_pos (by decide), List.map_cons, ih (gc + 1) ac pc]
          rfl

/-- General form of the session-token replacement: on any filename of
the shape `pre ++ "_ses-" ++ ses ++ post` whose prefix has no
underscore, whose session label is a non-empty underscore-free string
and whose tail starts with an underscore (or is empty) and contains no
further session token, the substitution of lines 301/308/374 replaces
exactly the session segment. -/
theorem sesSub_gen (repl pre ses post : List Char)
    (hpre : ∀ c ∈ pre, c ≠ '_') (hses : ses ≠ []) (hses2 : ∀ c ∈ ses, c ≠ '_')
    (hpost1 : post.takeWhile notUnd = [])
    (hpost2 : noOccScan sesTag post [] = true) :
    sesSub repl (pre ++ (sesTag ++ (ses ++ post))) = pre ++ (repl ++ post) := by
  have hp : ∀ c ∈ ses, notUnd c = true := fun c hc => (notUnd_eq_true c).mpr (hses2 c hc)
  have key := subTok_single '_' sesTok notUnd repl pre ses post
    (noOccScan_of_head '_' sesTok pre _ hpre) hses hp hpost1 hpost2
  calc sesSub repl (pre ++ (sesTag ++ (ses ++ post)))
      = subTok '_' sesTok notUnd repl (pre ++ ('_' :: (sesTok ++ (ses ++ post)))) := by
        rw [sesSub]
        congr 1
    _ = pre ++ (repl ++ post) := key

/-- Well-formedness of a `pre ++ "_ses-" ++ ses ++ post` decomposition
of a filename. -/
def sesSplitWF (pre ses post : List Char) : Prop :=
  (∀ c ∈ pre, c ≠ '_') ∧ ses ≠ [] ∧ (∀ c ∈ ses, c ≠ '_') ∧
  post.takeWhile notUnd = [] ∧ noOccScan sesTag post [] = true

instance (pre ses post : List Char) : Decidable (sesSplitWF pre ses post) := by
  unfold sesSplitWF
  infer_instance

/-- A structured anatomical (or generic) source filename containing a
session segment. -/
structure SesName where
  path : List Char
  pre : List Char
  ses : List Char
  post : List Char
deriving DecidableEq, Repr

/-- Flatten a structured name to the `SrcFile` the code sees. -/
def SesName.src (n : SesName) : SrcFile :=
  ⟨n.path, n.pre ++ (sesTag ++ (n.ses ++ n.post))⟩

/-- Well-formedness of a structured anatomical filename. -/
def SesWF (n : SesName) : Prop := sesSplitWF n.pre n.ses n.post

instance (n : SesName) : Decidable (SesWF n) := by
  unfold SesWF
  infer_instance

/-- A structured field-map source filename: `dir` entity plus a
session-split filename. -/
structure FmapName where
  dir : Option (List Char)
  path : List Char
  pre : List Char
  ses : List Char
  post : List Char
deriving DecidableEq, Repr

/-- Flatten a structured field-map name to the `FmapSrc` the code
sees. -/
def FmapName.toSrc (n : FmapName) : FmapSrc :=
  ⟨n.dir, n.path, n.pre ++ (sesTag ++ (n.ses ++ n.post))⟩

/-- Well-formedness of a structured field-map filename. -/
def FmapWF (n : FmapName) : Prop := sesSplitWF n.pre n.ses n.post

instance (n : FmapName) : Decidable (FmapWF n) := by
  unfold FmapWF
  infer_instance

theorem sesSub_sesName (repl : List Char) (n : SesName) (h : SesWF n) :
    sesSub repl (SesName.src n).filename = n.pre ++ (repl ++ n.post) := by
  obtain ⟨h1, h2, h3, h4, h5⟩ := h
  exact sesSub_gen repl n.pre n.ses n.post h1 h2 h3 h4 h5

theorem sesSub_fmapName (repl : List Char) (n : FmapName) (h : FmapWF n) :
    sesSub repl (FmapName.toSrc n).filename = n.pre ++ (repl ++ n.post) := by
  obtain ⟨h1, h2, h3, h4, h5⟩ := h
  exact sesSub_gen repl n.pre n.ses n.post h1 h2 h3 h4 h5

theorem filter_map_toSrc (g : FmapGroup) :
    ∀ (names : List FmapName),
      (names.map FmapName.toSrc).filter (fun f => decide (classifyDir f.dir = g)) =
        (names.filter (fun n => decide (classifyDir n.dir = g))).map FmapName.toSrc := by
  intro names
  induction names with
  | nil => rfl
  | cons n ns ih =>
    rw [List.map_cons, List.filter_cons, List.filter_cons]
    by_cases hc : classifyDir n.dir = g
    · rw [if_pos (by simpa using hc), if_pos (by simpa using hc), List.map_cons, ih]
    · rw [if_neg (by simpa using hc), if_neg (by simpa using hc), ih]

theorem zip_map_toSrc_filter (g : FmapGroup) :
    ∀ (names : List FmapName) (outs : List (List Char × List Char)),
      (((names.map FmapName.toSrc).zip outs).filter
          (fun pr => decide (classifyDir pr.1.dir = g))).map Prod.snd =
        ((names.zip outs).filter
          (fun pr => decide (classifyDir pr.1.dir = g))).map Prod.snd := by
  intro names
  induction names with
  | nil => intro outs; rfl
  | cons n ns ih =>
    intro outs
    match outs with
    | [] => rfl
    | o :: os =>
      rw [List.map_cons, List.zip_cons_cons, List.zip_cons_cons,
        List.filter_cons, List.filter_cons]
      by_cases hc : classifyDir n.dir = g
      · rw [if_pos (by simpa using hc), if_pos (by simpa using hc),
          List.map_cons, List.map_cons, ih os]
      · rw [if_neg (by simpa using hc), if_neg (by simpa using hc), ih os]

/-! ## Interface model (lines 177-377)

The observable behaviour of `interface` is modelled as the ordered list
of events it performs: creation of the three output subdirectories,
fatal aborts (the `assert` statements, using the error taxonomy of the
specification), and copies of data files into the output tree.  The
BIDS layout is an abstract catalog of query functions. -/

/-- The three output subdirectories of the combined subject tree. -/
inductive Dest | anat | func | fmap
deriving DecidableEq, Repr

/-- The fatal error taxonomy of the specification: `ConfigurationError`
for the session-selection asserts (lines 235, 251, 260) and
`DataAbsentError` for the empty anatomical list asserts
(lines 287-288). -/
inductive RunError | configurationError | dataAbsentError
deriving DecidableEq, Repr

/-- An observable event of one run. -/
inductive Event
  | mkdir (d : Dest)
  | fatal (e : RunError)
  | copy (src : List Char) (d : Dest) (destName : List Char)
deriving DecidableEq, Repr

/-- The abstract BIDS layout: the queries src/run.py issues. -/
structure Catalog where
  sessions : List (List Char)
  tasksOf : List (List Char) → List (List Char)
  t1w : List Char → List SrcFile
  t2w : List Char → List SrcFile
  fmaps : List Char → List FmapSrc
  funcs : List Char → List Char → List SrcFile

/-- Lexicographic (code-point) comparison of strings, the order of
Python's `sorted` on the session labels. -/
def lexLe : List Char → List Char → Bool
  | [], _ => true
  | _ :: _, [] => false
  | a :: as, b :: bs => if a = b then lexLe as bs else decide (a < b)

/-- Session resolution, lines 233-239: an explicit non-empty list is
checked for membership and kept in its order; otherwise all available
sessions are used sorted by name. -/
def resolveSessions (cat : Catalog) (session_list : List (List Char)) :
    Except RunError (List (List Char)) :=
  if session_list ≠ [] then
    if session_list.all (fun s => cat.sessions.contains s) then Except.ok session_list
    else Except.error RunError.configurationError
  else Except.ok (cat.sessions.mergeSort lexLe)

/-- Anatomical contributing-session resolution, lines 245-261: an
override label must belong to the resolved list and then contributes
alone; otherwise every resolved session contributes. -/
def anatSessions (sl : List (List Char)) : Option (List Char) →
    Except RunError (List (List Char))
  | none => Except.ok sl
  | some lbl =>
    if sl.contains lbl then Except.ok [lbl]
    else Except.error RunError.configurationError

/-- Collection of anatomical files, lines 271-277: traverse the
resolved sessions in order and append the per-session query results of
the contributing sessions. -/
def collectAnat (get : List Char → List SrcFile) (sl contributing : List (List Char)) :
    List SrcFile :=
  sl.flatMap (fun s => if contributing.contains s then get s else [])

/-- The copy events of one anatomical loop (lines 299-310). -/
def anatCopyEvents (files : List SrcFile) : List Event :=
  numberFrom (fun run t => Event.copy t.path Dest.anat (sesSub (runStr 2 run) t.filename))
    1 files

/-- The copy events of the functional loop for one task
(lines 316-340). -/
def funcCopyEvents (task : List Char) (files : List SrcFile) : List Event :=
  numberFrom
    (fun run f =>
      Event.copy f.path Dest.func (funcRename task (funcWidth files.length) run f.filename))
    1 files

/-- The copy events of the field-map loop (lines 349-375). -/
def fmapCopyEvents (files : List FmapSrc) : List Event :=
  (fmapEngine files).outs.map (fun pr => Event.copy pr.1 Dest.fmap pr.2)

/-- The event trace of one invocation of `interface`, lines 188-377 in
source order: the anat directory is created unconditionally (lines
214-215) before any validation; the session list is resolved, the two
anatomical override labels are checked, files are collected, the two
anatomical non-emptiness asserts run, and only then are files copied;
the func and fmap directories are created under the conditions of lines
312 and 345. -/
def interfaceRun (cat : Catalog) (session_list : List (List Char))
    (t1l t2l : Option (List Char)) : List Event :=
  Event.mkdir Dest.anat ::
    (match resolveSessions cat session_list with
     | Except.error e => [Event.fatal e]
     | Except.ok sl =>
       match anatSessions sl t1l with
       | Except.error e => [Event.fatal e]
       | Except.ok t1sess =>
         match anatSessions sl t2l with
         | Except.error e => [Event.fatal e]
         | Except.ok t2sess =>
           if collectAnat cat.t1w sl t1sess = [] then [Event.fatal RunError.dataAbsentError]
           else if collectAnat cat.t2w sl t2sess = [] then
             [Event.fatal RunError.dataAbsentError]
           else
             anatCopyEvents (collectAnat cat.t1w sl t1sess) ++
               (anatCopyEvents (collectAnat cat.t2w sl t2sess) ++
                 ((if cat.tasksOf sl ≠ [] then
                     Event.mkdir Dest.func ::
                       (cat.tasksOf sl).flatMap
                         (fun task => funcCopyEvents task
                           (sl.flatMap (fun s => cat.funcs s task)))
                   else []) ++
                  (if sl.flatMap cat.fmaps ≠ [] then
                     Event.mkdir Dest.fmap :: fmapCopyEvents (sl.flatMap cat.fmaps)
                   else []))))

theorem lexLe_total : ∀ (a b : List Char), (lexLe a b || lexLe b a) = true := by
  intro a
  induction a with
  | nil => intro b; simp [lexLe]
  | cons x xs ih =>
    intro b
    match b with
    | [] => simp [lexLe]
    | y :: ys =>
      by_cases h : x = y
      · subst h
        simp only [lexLe, if_pos rfl]
        exact ih ys
      · rw [show lexLe (x :: xs) (y :: ys) = decide (x < y) from by rw [lexLe, if_neg h],
          show lexLe (y :: ys) (x :: xs) = decide (y < x) from by
            rw [lexLe, if_neg (fun e => h e.symm)]]
        rcases lt_or_gt_of_ne h with hlt | hgt
        · simp [hlt]
        · simp [hgt]

theorem lexLe_trans : ∀ (a b c : List Char),
    lexLe a b = true → lexLe b c = true → lexLe a c = true := by
  intro a
  induction a with
  | nil => intro b c _ _; rfl
  | cons x xs ih =>
    intro b c hab hbc
    match b, c with
    | [], _ => rw [show lexLe (x :: xs) [] = false from rfl] at hab; exact absurd hab (by simp)
    | y :: ys, [] => rw [show lexLe (y :: ys) [] = false from rfl] at hbc
                     exact absurd hbc (by simp)
    | y :: ys, z :: zs =>
      by_cases hxy : x = y
      · subst hxy
        rw [lexLe, if_pos rfl] at hab
        by_cases hyz : x = z
        · subst hyz
          rw [lexLe, if_pos rfl] at hbc ⊢
          exact ih ys zs hab hbc
        · rw [lexLe, if_neg hyz] at hbc ⊢
          exact hbc
      · rw [lexLe, if_neg hxy] at hab
        have hlt : x < y := of_decide_eq_true hab
        by_cases hyz : y = z
        · subst hyz
          rw [lexLe, if_neg hxy]
          simpa using hlt
        · rw [lexLe, if_neg hyz] at hbc
          have hlt2 : y < z := of_decide_eq_true hbc
          have : x < z := lt_trans hlt hlt2
          rw [lexLe, if_neg (ne_of_lt this)]
          simpa using this

theorem classify_pa_iff (f : FmapSrc) :
    classifyDir f.dir = FmapGroup.pa ↔ dirOf f = paChars := by
  rw [classifyDir]
  by_cases hpa : upperStr (f.dir.getD nodirChars) = paChars
  · rw [if_pos hpa]
    exact ⟨fun _ => hpa, fun _ => rfl⟩
  · rw [if_neg hpa]
    constructor
    · intro h
      by_cases hap : upperStr (f.dir.getD nodirChars) = apChars
      · rw [if_pos hap] at h; exact absurd h (by decide)
      · rw [if_neg hap] at h; exact absurd h (by decide)
    · intro h; exact absurd h hpa

theorem classify_ap_iff (f : FmapSrc) :
    classifyDir f.dir = FmapGroup.ap ↔ dirOf f = apChars := by
  rw [classifyDir]
  by_cases hpa : upperStr (f.dir.getD nodirChars) = paChars
  · rw [if_pos hpa]
    constructor
    · intro h; exact absurd h (by decide)
    · intro h
      have : dirOf f = paChars := hpa
      rw [show dirOf f = upperStr (f.dir.getD nodirChars) from rfl] at h
      rw [hpa] at h
      exact absurd h.symm (by decide)
  · rw [if_neg hpa]
    by_cases hap : upperStr (f.dir.getD nodirChars) = apChars
    · rw [if_pos hap]
      exact ⟨fun _ => hap, fun _ => rfl⟩
    · rw [if_neg hap]
      exact ⟨fun h => absurd h (by decide), fun h => absurd h hap⟩

theorem classify_generic_iff (f : FmapSrc) :
    classifyDir f.dir = FmapGroup.generic ↔
      (dirOf f ≠ paChars ∧ dirOf f ≠ apChars) := by
  rw [classifyDir]
  by_cases hpa : upperStr (f.dir.getD nodirChars) = paChars
  · rw [if_pos hpa]
    exact ⟨fun h => absurd h (by decide), fun h => absurd hpa h.1⟩
  · rw [if_neg hpa]
    by_cases hap : upperStr (f.dir.getD nodirChars) = apChars
    · rw [if_pos hap]
      exact ⟨fun h => absurd h (by decide), fun h => absurd hap h.2⟩
    · rw [if_neg hap]
      exact ⟨fun _ => ⟨hpa, hap⟩, fun _ => rfl⟩

theorem filter_congr_own (p q : α → Bool) :
    ∀ (l : List α), (∀ x ∈ l, p x = q x) → l.filter p = l.filter q := by
  intro l
  induction l with
  | nil => intro _; rfl
  | cons x xs ih =>
    intro h
    rw [List.filter_cons, List.filter_cons, h x (List.mem_cons_self x xs),
      ih (fun y hy => h y (List.mem_cons_of_mem x hy))]

theorem fmapOutsFrom_length :
    ∀ (files : List FmapSrc) (g a p : Nat),
      (fmapOutsFrom g a p files).length = files.length := by
  intro files
  induction files with
  | nil => intro g a p; rfl
  | cons f fs ih =>
    intro g a p
    rw [fmapOutsFrom]
    by_cases hpa : dirOf f = paChars
    · rw [if_pos hpa]
      simp only [List.length_cons, ih]
    · rw [if_neg hpa]
      by_cases hap : dirOf f = apChars
      · rw [if_pos hap]
        simp only [List.length_cons, ih]
      · rw [if_neg hap]
        simp only [List.length_cons, ih]

theorem numberFrom_mem (g : Nat → α → β) :
    ∀ (r : Nat) (l : List α) (b : β), b ∈ numberFrom g r l → ∃ k x, x ∈ l ∧ b = g k x := by
  intro r l
  induction l generalizing r with
  | nil => intro b hb; exact absurd hb (by simp [numberFrom])
  | cons x xs ih =>
    intro b hb
    rw [numberFrom] at hb
    rcases List.mem_cons.mp hb with h | h
    · exact ⟨r, x, List.mem_cons_self x xs, h⟩
    · obtain ⟨k, y, hy, he⟩ := ih (r + 1) b h
      exact ⟨k, y, List.mem_cons_of_mem x hy, he⟩

/-- Recognizer for copy events into the anat subdirectory. -/
def isAnatCopy : Event → Bool
  | Event.copy _ Dest.anat _ => true
  | _ => false

/-- Recognizer for copy events into the fmap subdirectory. -/
def isFmapCopy : Event → Bool
  | Event.copy _ Dest.fmap _ => true
  | _ => false

/-- Recognizer for copy events of any kind. -/
def isCopy : Event → Bool
  | Event.copy _ _ _ => true
  | _ => false

/-! ## Claim theorems -/

/-- C1: For every task and every non-empty collector-ordered list of N
well-formed functional filenames, the functional renumbering engine
(lines 316-340) produces, in the same order, destination names obtained
by removing the session segment and carrying run numbers exactly 1..N
(the `numberFrom ... 1` on the right starts at 1 and increments per
file): a name with an explicit run token has it replaced by the fresh
run token (the destination template carries exactly one run token, so it
is never duplicated), and a name without one has it synthesized by
rewriting the task segment to `task-<TASK>_run-NNN`; the numbering of a
task's list is independent of every other task, so it restarts at 1 per
task. -/
theorem claim_C1 (task : List Char) (names : List FuncName)
    (hwf : ∀ n ∈ names, FuncWF task n) (hne : names ≠ []) :
    funcEngine task (names.map FuncName.render) =
      numberFrom (renderOut task (funcWidth names.length)) 1 names := by
  rw [funcEngine, List.length_map, numberFrom_map]
  exact numberFrom_congr _ _ 1 names
    (fun r n hn => funcRename_render task (funcWidth names.length) r n (hwf n hn))

/-- Concrete inputs for the C1 witness: one file with an explicit run
token and one without, for task "rest". -/
def wNamesC1 : List FuncName :=
  [⟨['0', '1'], ['A'], ['r', 'e', 's', 't'], some ['7'],
    ['b', 'o', 'l', 'd', '.', 'n', 'i', 'i', '.', 'g', 'z']⟩,
   ⟨['0', '1'], ['B'], ['r', 'e', 's', 't'], none,
    ['b', 'o', 'l', 'd', '.', 'n', 'i', 'i', '.', 'g', 'z']⟩]

theorem claim_C1_witness :
    (∀ n ∈ wNamesC1, FuncWF ['r', 'e', 's', 't'] n) ∧ wNamesC1 ≠ [] ∧
    funcEngine ['r', 'e', 's', 't'] (wNamesC1.map FuncName.render) =
      numberFrom (renderOut ['r', 'e', 's', 't'] (funcWidth wNamesC1.length)) 1 wNamesC1 :=
  ⟨by decide, by decide, claim_C1 ['r', 'e', 's', 't'] wNamesC1 (by decide) (by decide)⟩

/-- C4: The run-index zero-padding width used by the functional engine
is exactly the per-task decision of lines 317-322: 2 digits when the
task's file count is at most 100 and 3 digits when it exceeds 100 (the
boundary lies between 100 and 101), and the decision depends only on
the task's own list. -/
theorem claim_C4 (task : List Char) (files : List (List Char)) :
    funcEngine task files = numberFrom (funcRename task (funcWidth files.length)) 1 files ∧
    (files.length ≤ 100 → funcWidth files.length = 2) ∧
    (100 < files.length → funcWidth files.length = 3) ∧
    funcWidth 100 = 2 ∧ funcWidth 101 = 3 := by
  refine ⟨rfl, ?_, ?_, by decide, by decide⟩
  · intro h
    rw [funcWidth, if_neg (by omega)]
  · intro h
    rw [funcWidth, if_pos h]

theorem claim_C4_witness :
    funcWidth ([['a']] : List (List Char)).length = 2 ∧
    funcWidth (List.replicate 101 ([] : List Char)).length = 3 :=
  ⟨(claim_C4 [] [['a']]).2.1 (by decide),
   (claim_C4 [] (List.replicate 101 [])).2.2.1 (by decide)⟩

/-- C3: The destination metadata written by the Materializer
(`json_data.update({'SourceFile': src_nii})`, line 161) maps the
provenance key to the source data file's path, keeps a value for every
key present in the source metadata, and leaves the value of every key
other than the provenance key unchanged — the injection is additive,
not destructive. -/
theorem claim_C3 (src : List Char) (m : Meta) :
    makeUnisessionJson src m sourceFileKey = some src ∧
    (∀ k, (m k).isSome = true → (makeUnisessionJson src m k).isSome = true) ∧
    (∀ k, k ≠ sourceFileKey → makeUnisessionJson src m k = m k) := by
  refine ⟨?_, ?_, ?_⟩
  · rw [show makeUnisessionJson src m sourceFileKey =
      (if sourceFileKey = sourceFileKey then some src else m sourceFileKey) from rfl,
      if_pos rfl]
  · intro k hk
    by_cases h : k = sourceFileKey
    · subst h
      rw [show makeUnisessionJson src m sourceFileKey =
        (if sourceFileKey = sourceFileKey then some src else m sourceFileKey) from rfl,
        if_pos rfl]
      rfl
    · rw [show makeUnisessionJson src m k = (if k = sourceFileKey then some src else m k)
        from rfl, if_neg h]
      exact hk
  · intro k hk
    rw [show makeUnisessionJson src m k = (if k = sourceFileKey then some src else m k)
      from rfl, if_neg hk]

/-- Concrete source metadata for the C3 witness. -/
def wMetaC3 : Meta := fun k => if k = ['E'] then some ['7'] else none

theorem claim_C3_witness :
    makeUnisessionJson ['p'] wMetaC3 sourceFileKey = some ['p'] ∧
    (makeUnisessionJson ['p'] wMetaC3 ['E']).isSome = true ∧
    makeUnisessionJson ['p'] wMetaC3 ['E'] = wMetaC3 ['E'] :=
  ⟨(claim_C3 ['p'] wMetaC3).1,
   (claim_C3 ['p'] wMetaC3).2.1 ['E'] (by decide),
   (claim_C3 ['p'] wMetaC3).2.2 ['E'] (by decide)⟩

/-- C8: The Materializer rewrites no metadata field other than the
injected provenance key; in particular the IntendedFor cross-reference
field of a field-map metadata record reaches the destination
byte-identical to its source value (the TODO on line 377 of src/run.py
confirms the rewrite is never performed). -/
theorem claim_C8 (src : List Char) (m : Meta) :
    (∀ k, k ≠ sourceFileKey → makeUnisessionJson src m k = m k) ∧
    makeUnisessionJson src m intendedForKey = m intendedForKey := by
  constructor
  · intro k hk
    rw [show makeUnisessionJson src m k = (if k = sourceFileKey then some src else m k)
      from rfl, if_neg hk]
  · rw [show makeUnisessionJson src m intendedForKey =
      (if intendedForKey = sourceFileKey then some src else m intendedForKey) from rfl,
      if_neg (by decide)]

/-- Concrete source metadata for the C8 witness, carrying an
IntendedFor field. -/
def wMetaC8 : Meta := fun k => if k = intendedForKey then some ['x'] else none

theorem claim_C8_witness :
    makeUnisessionJson ['p'] wMetaC8 ['E'] = wMetaC8 ['E'] ∧
    makeUnisessionJson ['p'] wMetaC8 intendedForKey = wMetaC8 intendedForKey :=
  ⟨(claim_C8 ['p'] wMetaC8).1 ['E'] (by decide), (claim_C8 ['p'] wMetaC8).2⟩

/-- C2: Field-map classification is the total function `classifyDir` of
the upper-cased direction attribute ("PA" to the PA list, "AP" to the
AP list, absence — defaulted to "NODIR" — or any other value to the
generic list); an unrecognized value is recorded in the warning list
with its (upper-cased) value but the file is still processed (one output
per input file); and each sub-group's outputs are numbered independently
from 1 in collector order, regardless of the other sub-groups. -/
theorem claim_C2 (files : List FmapSrc) :
    (fmapEngine files).pas =
      files.filter (fun f => decide (classifyDir f.dir = FmapGroup.pa)) ∧
    (fmapEngine files).aps =
      files.filter (fun f => decide (classifyDir f.dir = FmapGroup.ap)) ∧
    (fmapEngine files).gen_fmaps =
      files.filter (fun f => decide (classifyDir f.dir = FmapGroup.generic)) ∧
    (fmapEngine files).warns = (files.filter unrecognizedDir).map dirOf ∧
    (∀ f, unrecognizedDir f = true ↔
      (classifyDir f.dir = FmapGroup.generic ∧ dirOf f ≠ nodirChars)) ∧
    (fmapEngine files).outs.length = files.length ∧
    (∀ g, ((files.zip (fmapEngine files).outs).filter
        (fun pr => decide (classifyDir pr.1.dir = g))).map Prod.snd =
      numberFrom (fun r f => (f.path, sesSub (runStr 2 r) f.filename)) 1
        (files.filter (fun f => decide (classifyDir f.dir = g)))) := by
  obtain ⟨h1, h2, h3, h4, h5⟩ := fmap_loop_spec files ⟨[], [], [], [], []⟩
  have houts : (fmapEngine files).outs = fmapOutsFrom 0 0 0 files := by
    rw [show (fmapEngine files).outs = (files.foldl fmapStep ⟨[], [], [], [], []⟩).outs
      from rfl, h5]
    simp
  refine ⟨?_, ?_, ?_, ?_, ?_, ?_, ?_⟩
  · rw [show (fmapEngine files).pas = (files.foldl fmapStep ⟨[], [], [], [], []⟩).pas
      from rfl, h1]
    simp only [List.nil_append]
    exact filter_congr_own _ _ files
      (fun f _ => decide_eq_decide.mpr (classify_pa_iff f).symm)
  · rw [show (fmapEngine files).aps = (files.foldl fmapStep ⟨[], [], [], [], []⟩).aps
      from rfl, h2]
    simp only [List.nil_append]
    exact filter_congr_own _ _ files
      (fun f _ => decide_eq_decide.mpr (classify_ap_iff f).symm)
  · rw [show (fmapEngine files).gen_fmaps =
      (files.foldl fmapStep ⟨[], [], [], [], []⟩).gen_fmaps from rfl, h3]
    simp only [List.nil_append]
    exact filter_congr_own _ _ files
      (fun f _ => decide_eq_decide.mpr (classify_generic_iff f).symm)
  · rw [show (fmapEngine files).warns = (files.foldl fmapStep ⟨[], [], [], [], []⟩).warns
      from rfl, h4]
    simp only [List.nil_append]
  · intro f
    simp [unrecognizedDir, classify_generic_iff, and_assoc]
  · rw [houts, fmapOutsFrom_length]
  · intro g
    rw [houts, fmap_group_outs g files 0 0 0,
      show groupStart g 0 0 0 = 0 from by cases g <;> rfl]

/-- Concrete field-map inputs for the C2 witness: one AP file, one file
without a direction, one with an unrecognized direction. -/
def wFilesC2 : List FmapSrc :=
  [⟨some ['A', 'P'], ['p'], ['f']⟩, ⟨none, ['q'], ['g']⟩, ⟨some ['x'], ['r'], ['h']⟩]

theorem claim_C2_witness :
    (fmapEngine wFilesC2).aps =
      wFilesC2.filter (fun f => decide (classifyDir f.dir = FmapGroup.ap)) ∧
    (fmapEngine wFilesC2).warns = (wFilesC2.filter unrecognizedDir).map dirOf ∧
    (fmapEngine wFilesC2).outs.length = wFilesC2.length :=
  ⟨(claim_C2 wFilesC2).2.1, (claim_C2 wFilesC2).2.2.2.1, (claim_C2 wFilesC2).2.2.2.2.2.1⟩

/-- C5: For the anatomical loops and for every field-map sub-group, the
destination filename is the original filename with the session segment
replaced by a `_run-NN` token of fixed width 2 (no task token involved),
and run indices are assigned 1..N in collector order within the
group. -/
theorem claim_C5 :
    (∀ (names : List SesName), (∀ n ∈ names, SesWF n) →
      anatEngine (names.map SesName.src) =
        numberFrom (fun r n => (n.path, n.pre ++ (runStr 2 r ++ n.post))) 1 names) ∧
    (∀ (names : List FmapName) (g : FmapGroup), (∀ n ∈ names, FmapWF n) →
      ((names.zip (fmapEngine (names.map FmapName.toSrc)).outs).filter
          (fun pr => decide (classifyDir pr.1.dir = g))).map Prod.snd =
        numberFrom (fun r n => (n.path, n.pre ++ (runStr 2 r ++ n.post))) 1
          (names.filter (fun n => decide (classifyDir n.dir = g)))) := by
  constructor
  · intro names hwf
    rw [anatEngine, numberFrom_map]
    refine numberFrom_congr _ _ 1 names (fun r n hn => ?_)
    show ((SesName.src n).path, sesSub (runStr 2 r) (SesName.src n).filename) =
      (n.path, n.pre ++ (runStr 2 r ++ n.post))
    rw [sesSub_sesName (runStr 2 r) n (hwf n hn)]
    rfl
  · intro names g hwf
    obtain ⟨h1, h2, h3, h4, h5⟩ := fmap_loop_spec (names.map FmapName.toSrc) ⟨[], [], [], [], []⟩
    have houts : (fmapEngine (names.map FmapName.toSrc)).outs =
        fmapOutsFrom 0 0 0 (names.map FmapName.toSrc) := by
      rw [show (fmapEngine (names.map FmapName.toSrc)).outs =
        ((names.map FmapName.toSrc).foldl fmapStep ⟨[], [], [], [], []⟩).outs from rfl, h5]
      simp
    rw [houts, ← zip_map_toSrc_filter g names (fmapOutsFrom 0 0 0 (names.map FmapName.toSrc)),
      fmap_group_outs g (names.map FmapName.toSrc) 0 0 0,
      filter_map_toSrc g names, numberFrom_map,
      show groupStart g 0 0 0 = 0 from by cases g <;> rfl]
    refine numberFrom_congr _ _ (0 + 1) _ (fun r n hn => ?_)
    show ((FmapName.toSrc n).path, sesSub (runStr 2 r) (FmapName.toSrc n).filename) =
      (n.path, n.pre ++ (runStr 2 r ++ n.post))
    rw [sesSub_fmapName (runStr 2 r) n (hwf n (List.mem_of_mem_filter hn))]
    rfl

/-- Concrete anatomical inputs for the C5 witness. -/
def wNamesC5a : List SesName :=
  [⟨['p'], ['s', 'u', 'b', '-', 'X'], ['0', '1'], ['_', 'T', '1', 'w']⟩,
   ⟨['q'], ['s', 'u', 'b', '-', 'X'], ['0', '2'], ['_', 'T', '1', 'w']⟩]

/-- Concrete field-map inputs for the C5 witness. -/
def wNamesC5f : List FmapName :=
  [⟨some ['A', 'P'], ['p'], ['s', 'u', 'b', '-', 'X'], ['0', '1'], ['_', 'e', 'p', 'i']⟩,
   ⟨none, ['q'], ['s', 'u', 'b', '-', 'X'], ['0', '2'], ['_', 'e', 'p', 'i']⟩,
   ⟨some ['A', 'P'], ['r'], ['s', 'u', 'b', '-', 'X'], ['0', '2'], ['_', 'e', 'p', 'i']⟩]

theorem claim_C5_witness :
    anatEngine (wNamesC5a.map SesName.src) =
      numberFrom (fun r n => (n.path, n.pre ++ (runStr 2 r ++ n.post))) 1 wNamesC5a ∧
    ((wNamesC5f.zip (fmapEngine (wNamesC5f.map FmapName.toSrc)).outs).filter
        (fun pr => decide (classifyDir pr.1.dir = FmapGroup.ap))).map Prod.snd =
      numberFrom (fun r n => (n.path, n.pre ++ (runStr 2 r ++ n.post))) 1
        (wNamesC5f.filter (fun n => decide (classifyDir n.dir = FmapGroup.ap))) :=
  ⟨claim_C5.1 wNamesC5a (by decide), claim_C5.2 wNamesC5f FmapGroup.ap (by decide)⟩

theorem fmapOutsFrom_congr_mid (f1 f2 : FmapSrc) (hdir : dirOf f1 = dirOf f2)
    (hpath : f1.path = f2.path) (hfn : f1.filename = f2.filename) (post : List FmapSrc) :
    ∀ (pre : List FmapSrc) (g a p : Nat),
      fmapOutsFrom g a p (pre ++ f1 :: post) = fmapOutsFrom g a p (pre ++ f2 :: post) := by
  intro pre
  induction pre with
  | nil =>
    intro g a p
    rw [List.nil_append, List.nil_append, fmapOutsFrom, fmapOutsFrom,
      ← hdir, ← hpath, ← hfn]
  | cons x xs ih =>
    intro g a p
    rw [List.cons_append, List.cons_append, fmapOutsFrom, fmapOutsFrom]
    by_cases hpa : dirOf x = paChars
    · rw [if_pos hpa, if_pos hpa, ih g a (p + 1)]
    · rw [if_neg hpa, if_neg hpa]
      by_cases hap : dirOf x = apChars
      · rw [if_pos hap, if_pos hap, ih g (a + 1) p]
      · rw [if_neg hap, if_neg hap, ih (g + 1) a p]

theorem filter_unrec_congr_mid (f1 f2 : FmapSrc)
    (h1 : unrecognizedDir f1 = false) (h2 : unrecognizedDir f2 = false)
    (pre post : List FmapSrc) :
    (pre ++ f1 :: post).filter unrecognizedDir = (pre ++ f2 :: post).filter unrecognizedDir := by
  rw [List.filter_append, List.filter_append, List.filter_cons, List.filter_cons, h1, h2]
  simp

/-- C10: A field-map file whose direction attribute is present and
upper-cases to "NODIR" (i.e. equals "nodir" in any letter case) is
classified into the generic sub-group, triggers no
unrecognized-direction warning, and is indistinguishable at the
interface (output stream and warning stream of the field-map loop) from
the same file with the attribute absent, wherever it occurs in the
input. -/
theorem claim_C10 (pre post : List FmapSrc) (d path fn : List Char)
    (h : upperStr d = nodirChars) :
    classifyDir (some d) = FmapGroup.generic ∧
    unrecognizedDir ⟨some d, path, fn⟩ = false ∧
    (fmapEngine (pre ++ ⟨some d, path, fn⟩ :: post)).outs =
      (fmapEngine (pre ++ (⟨none, path, fn⟩ : FmapSrc) :: post)).outs ∧
    (fmapEngine (pre ++ ⟨some d, path, fn⟩ :: post)).warns =
      (fmapEngine (pre ++ (⟨none, path, fn⟩ : FmapSrc) :: post)).warns := by
  have hd1 : dirOf ⟨some d, path, fn⟩ = nodirChars := h
  have hd2 : dirOf (⟨none, path, fn⟩ : FmapSrc) = nodirChars := rfl
  have hcl : classifyDir (some d) = FmapGroup.generic := by
    rw [classifyDir,
      if_neg (show ¬ upperStr ((some d).getD nodirChars) = paChars from by
        rw [show upperStr ((some d).getD nodirChars) = upperStr d from rfl, h]; decide),
      if_neg (show ¬ upperStr ((some d).getD nodirChars) = apChars from by
        rw [show upperStr ((some d).getD nodirChars) = upperStr d from rfl, h]; decide)]
  have hu1 : unrecognizedDir ⟨some d, path, fn⟩ = false := by
    simp [unrecognizedDir, hd1]
  have hu2 : unrecognizedDir (⟨none, path, fn⟩ : FmapSrc) = false := rfl
  obtain ⟨a1, a2, a3, a4, a5⟩ :=
    fmap_loop_spec (pre ++ ⟨some d, path, fn⟩ :: post) ⟨[], [], [], [], []⟩
  obtain ⟨b1, b2, b3, b4, b5⟩ :=
    fmap_loop_spec (pre ++ (⟨none, path, fn⟩ : FmapSrc) :: post) ⟨[], [], [], [], []⟩
  refine ⟨hcl, hu1, ?_, ?_⟩
  · rw [show (fmapEngine (pre ++ ⟨some d, path, fn⟩ :: post)).outs =
      ((pre ++ ⟨some d, path, fn⟩ :: post).foldl fmapStep ⟨[], [], [], [], []⟩).outs
      from rfl, a5,
      show (fmapEngine (pre ++ (⟨none, path, fn⟩ : FmapSrc) :: post)).outs =
      ((pre ++ (⟨none, path, fn⟩ : FmapSrc) :: post).foldl fmapStep ⟨[], [], [], [], []⟩).outs
      from rfl, b5]
    simp only [List.nil_append]
    exact fmapOutsFrom_congr_mid ⟨some d, path, fn⟩ ⟨none, path, fn⟩
      (by rw [hd1, hd2]) rfl rfl post pre 0 0 0
  · rw [show (fmapEngine (pre ++ ⟨some d, path, fn⟩ :: post)).warns =
      ((pre ++ ⟨some d, path, fn⟩ :: post).foldl fmapStep ⟨[], [], [], [], []⟩).warns
      from rfl, a4,
      show (fmapEngine (pre ++ (⟨none, path, fn⟩ : FmapSrc) :: post)).warns =
      ((pre ++ (⟨none, path, fn⟩ : FmapSrc) :: post).foldl fmapStep ⟨[], [], [], [], []⟩).warns
      from rfl, b4]
    simp only [List.nil_append]
    rw [filter_unrec_congr_mid ⟨some d, path, fn⟩ ⟨none, path, fn⟩ hu1 hu2 pre post]

theorem claim_C10_witness :
    classifyDir (some ['n', 'o', 'D', 'i', 'r']) = FmapGroup.generic ∧
    unrecognizedDir ⟨some ['n', 'o', 'D', 'i', 'r'], ['p'], ['f']⟩ = false ∧
    (fmapEngine [⟨some ['n', 'o', 'D', 'i', 'r'], ['p'], ['f']⟩]).outs =
      (fmapEngine [(⟨none, ['p'], ['f']⟩ : FmapSrc)]).outs ∧
    (fmapEngine [⟨some ['n', 'o', 'D', 'i', 'r'], ['p'], ['f']⟩]).warns =
      (fmapEngine [(⟨none, ['p'], ['f']⟩ : FmapSrc)]).warns :=
  claim_C10 [] [] ['n', 'o', 'D', 'i', 'r'] ['p'] ['f'] (by decide)

/-- C7: Session selection (lines 233-239): a supplied non-empty session
list whose entries are all available sessions is kept verbatim, in its
supplied order (and this resolved list drives every later collection
loop of the interface); a supplied list with an unknown entry is a
configuration error; with no supplied list the combined order is the
lexicographic sort of all available sessions — a true sort: pairwise
ordered under the code-point order and a permutation of the available
sessions. -/
theorem claim_C7 (cat : Catalog) (sl : List (List Char)) :
    (sl ≠ [] → sl.all (fun s => cat.sessions.contains s) = true →
      resolveSessions cat sl = Except.ok sl) ∧
    (sl ≠ [] → sl.all (fun s => cat.sessions.contains s) = false →
      resolveSessions cat sl = Except.error RunError.configurationError) ∧
    (sl = [] → resolveSessions cat sl = Except.ok (cat.sessions.mergeSort lexLe)) ∧
    List.Pairwise (fun a b => lexLe a b = true) (cat.sessions.mergeSort lexLe) ∧
    (cat.sessions.mergeSort lexLe).Perm cat.sessions := by
  refine ⟨?_, ?_, ?_, ?_, ?_⟩
  · intro hne hall
    rw [resolveSessions, if_pos hne, if_pos hall]
  · intro hne hall
    rw [resolveSessions, if_pos hne, hall]
    rfl
  · intro he
    rw [resolveSessions, if_neg (by simp [he])]
  · exact List.sorted_mergeSort lexLe_trans lexLe_total cat.sessions
  · exact List.mergeSort_perm cat.sessions lexLe

/-- Concrete catalog for the C7 witness: two unsorted sessions. -/
def wCatC7 : Catalog :=
  ⟨[['b'], ['a']], fun _ => [], fun _ => [], fun _ => [], fun _ => [], fun _ _ => []⟩

theorem claim_C7_witness :
    resolveSessions wCatC7 [['b']] = Except.ok [['b']] ∧
    resolveSessions wCatC7 [['c']] = Except.error RunError.configurationError ∧
    resolveSessions wCatC7 [] = Except.ok (wCatC7.sessions.mergeSort lexLe) ∧
    List.Pairwise (fun a b => lexLe a b = true) (wCatC7.sessions.mergeSort lexLe) :=
  ⟨(claim_C7 wCatC7 [['b']]).1 (by decide) (by decide),
   (claim_C7 wCatC7 [['c']]).2.1 (by decide) (by decide),
   (claim_C7 wCatC7 []).2.2.1 rfl,
   (claim_C7 wCatC7 []).2.2.2.1⟩

/-- C6: Every fatal input-validation failure aborts the run before any
file is copied: the trace is exactly the unconditional anat-directory
creation followed by the fatal event, with no copy event.  The first
two conjuncts characterize when the session-selection and
anatomical-override checks fail (an explicit list with an unknown
session; an override label outside the resolved list), both as
ConfigurationError; the remaining conjuncts show that each failure —
including an empty T1w or T2w collection (DataAbsentError) — yields the
two-event trace. -/
theorem claim_C6 (cat : Catalog) (sl : List (List Char)) (t1l t2l : Option (List Char)) :
    (resolveSessions cat sl = Except.error RunError.configurationError ↔
      (sl ≠ [] ∧ ¬ sl.all (fun s => cat.sessions.contains s) = true)) ∧
    (∀ rs, anatSessions rs t1l = Except.error RunError.configurationError ↔
      ∃ l, t1l = some l ∧ rs.contains l = false) ∧
    (resolveSessions cat sl = Except.error RunError.configurationError →
      interfaceRun cat sl t1l t2l =
        [Event.mkdir Dest.anat, Event.fatal RunError.configurationError]) ∧
    (∀ rs, resolveSessions cat sl = Except.ok rs →
      anatSessions rs t1l = Except.error RunError.configurationError →
      interfaceRun cat sl t1l t2l =
        [Event.mkdir Dest.anat, Event.fatal RunError.configurationError]) ∧
    (∀ rs t1s, resolveSessions cat sl = Except.ok rs →
      anatSessions rs t1l = Except.ok t1s →
      anatSessions rs t2l = Except.error RunError.configurationError →
      interfaceRun cat sl t1l t2l =
        [Event.mkdir Dest.anat, Event.fatal RunError.configurationError]) ∧
    (∀ rs t1s t2s, resolveSessions cat sl = Except.ok rs →
      anatSessions rs t1l = Except.ok t1s →
      anatSessions rs t2l = Except.ok t2s →
      (collectAnat cat.t1w rs t1s = [] ∨ collectAnat cat.t2w rs t2s = []) →
      interfaceRun cat sl t1l t2l =
        [Event.mkdir Dest.anat, Event.fatal RunError.dataAbsentError]) := by
  refine ⟨?_, ?_, ?_, ?_, ?_, ?_⟩
  · rw [resolveSessions]
    by_cases hne : sl ≠ []
    · rw [if_pos hne]
      by_cases hall : sl.all (fun s => cat.sessions.contains s) = true
      · rw [if_pos hall]
        exact ⟨fun h => Except.noConfusion h, fun h => absurd hall h.2⟩
      · rw [if_neg hall]
        exact ⟨fun _ => ⟨hne, hall⟩, fun _ => rfl⟩
    · rw [if_neg hne]
      exact ⟨fun h => Except.noConfusion h, fun h => absurd h.1 hne⟩
  · intro rs
    match t1l with
    | none =>
      rw [anatSessions]
      constructor
      · intro h; exact Except.noConfusion h
      · rintro ⟨l, hl, _⟩; exact Option.noConfusion hl
    | some lbl =>
      rw [anatSessions]
      by_cases hc : rs.contains lbl
      · rw [if_pos hc]
        constructor
        · intro h; exact Except.noConfusion h
        · rintro ⟨l, hl, hl2⟩
          rw [Option.some.inj hl] at hc
          rw [hc] at hl2
          exact Bool.noConfusion hl2
      · rw [if_neg hc]
        exact ⟨fun _ => ⟨lbl, rfl, Bool.not_eq_true _ ▸ Bool.of_not_eq_true hc⟩,
          fun _ => rfl⟩
  · intro h
    rw [interfaceRun, h]
  · intro rs hres hanat
    rw [interfaceRun, hres]
    simp only [hanat]
  · intro rs t1s hres h1 h2
    rw [interfaceRun, hres]
    simp only [h1, h2]
  · intro rs t1s t2s hres h1 h2 hempty
    rw [interfaceRun, hres]
    simp only [h1, h2]
    rcases hempty with he | he
    · rw [if_pos he]
    · by_cases h1e : collectAnat cat.t1w rs t1s = []
      · rw [if_pos h1e]
      · rw [if_neg h1e, if_pos he]

/-- Concrete catalog for the C6 witness: one session, no files at
all. -/
def wCatC6 : Catalog :=
  ⟨[['a']], fun _ => [], fun _ => [], fun _ => [], fun _ => [], fun _ _ => []⟩

theorem claim_C6_witness :
    interfaceRun wCatC6 [['b']] none none =
      [Event.mkdir Dest.anat, Event.fatal RunError.configurationError] ∧
    interfaceRun wCatC6 [['a']] (some ['b']) none =
      [Event.mkdir Dest.anat, Event.fatal RunError.configurationError] ∧
    interfaceRun wCatC6 [['a']] none none =
      [Event.mkdir Dest.anat, Event.fatal RunError.dataAbsentError] :=
  ⟨(claim_C6 wCatC6 [['b']] none none).2.2.1 rfl,
   (claim_C6 wCatC6 [['a']] (some ['b']) none).2.2.2.1 [['a']] rfl rfl,
   (claim_C6 wCatC6 [['a']] none none).2.2.2.2.2 [['a']] [['a']] [['a']] rfl rfl rfl
     (Or.inl rfl)⟩

/-- Catalog with no sessions and no files, for the C9 counterexample. -/
def cexCatC9 : Catalog :=
  ⟨[], fun _ => [], fun _ => [], fun _ => [], fun _ => [], fun _ _ => []⟩

/-- C9 counterexample: requesting an unknown session makes the run
abort before copying anything, yet the anat subdirectory has already
been created (lines 214-215 run before any validation) — so "a
subdirectory is created only if at least one file will be written into
it" is false for this invocation. -/
theorem claim_C9_cex :
    interfaceRun cexCatC9 [['0', '1']] none none =
      [Event.mkdir Dest.anat, Event.fatal RunError.configurationError] ∧
    Event.mkdir Dest.anat ∈ interfaceRun cexCatC9 [['0', '1']] none none ∧
    ¬ ∃ e ∈ interfaceRun cexCatC9 [['0', '1']] none none, isAnatCopy e = true := by
  refine ⟨rfl, ?_, ?_⟩
  · rw [show interfaceRun cexCatC9 [['0', '1']] none none =
      [Event.mkdir Dest.anat, Event.fatal RunError.configurationError] from rfl]
    decide
  · rw [show interfaceRun cexCatC9 [['0', '1']] none none =
      [Event.mkdir Dest.anat, Event.fatal RunError.configurationError] from rfl]
    decide

theorem fmapEngine_outs_eq (files : List FmapSrc) :
    (fmapEngine files).outs = fmapOutsFrom 0 0 0 files := by
  obtain ⟨h1, h2, h3, h4, h5⟩ := fmap_loop_spec files ⟨[], [], [], [], []⟩
  rw [show (fmapEngine files).outs = (files.foldl fmapStep ⟨[], [], [], [], []⟩).outs
    from rfl, h5]
  simp

theorem mkdir_notin_anatCopies (d : Dest) (files : List SrcFile) :
    Event.mkdir d ∉ anatCopyEvents files := by
  intro h
  obtain ⟨k, x, _, he⟩ := numberFrom_mem _ 1 files _ h
  exact Event.noConfusion he

theorem mkdir_notin_funcCopies (d : Dest) (task : List Char) (files : List SrcFile) :
    Event.mkdir d ∉ funcCopyEvents task files := by
  intro h
  obtain ⟨k, x, _, he⟩ := numberFrom_mem _ 1 files _ h
  exact Event.noConfusion he

theorem mkdir_notin_fmapCopies (d : Dest) (files : List FmapSrc) :
    Event.mkdir d ∉ fmapCopyEvents files := by
  intro h
  rw [fmapCopyEvents] at h
  obtain ⟨pr, _, he⟩ := List.mem_map.mp h
  exact Event.noConfusion he

theorem exists_fmapCopy (files : List FmapSrc) (h : files ≠ []) :
    ∃ e ∈ fmapCopyEvents files, isFmapCopy e = true := by
  have hne : fmapCopyEvents files ≠ [] := by
    rw [fmapCopyEvents]
    intro he
    have hlen := congrArg List.length he
    rw [List.length_map, fmapEngine_outs_eq, fmapOutsFrom_length] at hlen
    exact h (List.length_eq_zero.mp hlen)
  obtain ⟨e, hm⟩ := List.exists_mem_of_ne_nil _ hne
  refine ⟨e, hm, ?_⟩
  rw [fmapCopyEvents] at hm
  obtain ⟨pr, _, he⟩ := List.mem_map.mp hm
  rw [← he]
  rfl

/-- C9 amended: the anat subdirectory is created unconditionally at the
start of every invocation, even when no file is ever written into it;
the func subdirectory is created only if the session list resolved and
at least one task was found (line 312 tests the number of tasks, not of
files); the fmap subdirectory is created only if at least one field-map
file was collected, in which case at least one file is indeed copied
into it. -/
theorem claim_C9_amended (cat : Catalog) (sl : List (List Char))
    (t1l t2l : Option (List Char)) :
    Event.mkdir Dest.anat ∈ interfaceRun cat sl t1l t2l ∧
    (Event.mkdir Dest.func ∈ interfaceRun cat sl t1l t2l →
      ∃ rs, resolveSessions cat sl = Except.ok rs ∧ cat.tasksOf rs ≠ []) ∧
    (Event.mkdir Dest.fmap ∈ interfaceRun cat sl t1l t2l →
      ∃ e ∈ interfaceRun cat sl t1l t2l, isFmapCopy e = true) := by
  refine ⟨?_, ?_, ?_⟩
  · rw [interfaceRun]
    exact List.mem_cons_self _ _
  · intro hmem
    rw [interfaceRun] at hmem
    cases hres : resolveSessions cat sl with
    | error e => simp only [hres] at hmem; simp at hmem
    | ok rs =>
      simp only [hres] at hmem
      cases h1 : anatSessions rs t1l with
      | error e => simp only [h1] at hmem; simp at hmem
      | ok t1s =>
        simp only [h1] at hmem
        cases h2 : anatSessions rs t2l with
        | error e => simp only [h2] at hmem; simp at hmem
        | ok t2s =>
          simp only [h2] at hmem
          by_cases he1 : collectAnat cat.t1w rs t1s = []
          · rw [if_pos he1] at hmem; simp at hmem
          · rw [if_neg he1] at hmem
            by_cases he2 : collectAnat cat.t2w rs t2s = []
            · rw [if_pos he2] at hmem; simp at hmem
            · rw [if_neg he2] at hmem
              by_cases ht : cat.tasksOf rs ≠ []
              · exact ⟨rs, rfl, ht⟩
              · exfalso
                rw [if_neg ht] at hmem
                rcases List.mem_cons.mp hmem with h | h
                · simp at h
                rcases List.mem_append.mp h with h | h
                · exact mkdir_notin_anatCopies Dest.func _ h
                rcases List.mem_append.mp h with h | h
                · exact mkdir_notin_anatCopies Dest.func _ h
                rcases List.mem_append.mp h with h | h
                · simp at h
                by_cases hf : rs.flatMap cat.fmaps ≠ []
                · rw [if_pos hf] at h
                  rcases List.mem_cons.mp h with h | h
                  · simp at h
                  · exact mkdir_notin_fmapCopies Dest.func _ h
                · rw [if_neg hf] at h
                  simp at h
  · intro hmem
    rw [interfaceRun] at hmem ⊢
    cases hres : resolveSessions cat sl with
    | error e => simp only [hres] at hmem; simp at hmem
    | ok rs =>
      simp only [hres] at hmem ⊢
      cases h1 : anatSessions rs t1l with
      | error e => simp only [h1] at hmem; simp at hmem
      | ok t1s =>
        simp only [h1] at hmem ⊢
        cases h2 : anatSessions rs t2l with
        | error e => simp only [h2] at hmem; simp at hmem
        | ok t2s =>
          simp only [h2] at hmem ⊢
          by_cases he1 : collectAnat cat.t1w rs t1s = []
          · rw [if_pos he1] at hmem; simp at hmem
          · rw [if_neg he1] at hmem ⊢
            by_cases he2 : collectAnat cat.t2w rs t2s = []
            · rw [if_pos he2] at hmem; simp at hmem
            · rw [if_neg he2] at hmem ⊢
              by_cases hf : rs.flatMap cat.fmaps ≠ []
              · obtain ⟨e, hm, hfc⟩ := exists_fmapCopy _ hf
                refine ⟨e, ?_, hfc⟩
                apply List.mem_cons_of_mem
                apply List.mem_append.mpr
                apply Or.inr
                apply List.mem_append.mpr
                apply Or.inr
                apply List.mem_append.mpr
                apply Or.inr
                rw [if_pos hf]
                exact List.mem_cons_of_mem _ hm
              · exfalso
                rw [if_neg hf] at hmem
                rcases List.mem_cons.mp hmem with h | h
                · simp at h
                rcases List.mem_append.mp h with h | h
                · exact mkdir_notin_anatCopies Dest.fmap _ h
                rcases List.mem_append.mp h with h | h
                · exact mkdir_notin_anatCopies Dest.fmap _ h
                rcases List.mem_append.mp h with h | h
                · by_cases ht : cat.tasksOf rs ≠ []
                  · rw [if_pos ht] at h
                    rcases List.mem_cons.mp h with h | h
                    · simp at h
                    · obtain ⟨task, _, hmem2⟩ := List.mem_flatMap.mp h
                      exact mkdir_notin_funcCopies Dest.fmap task _ hmem2
                  · rw [if_neg ht] at h
                    simp at h
                · simp at h

/-- Catalog with one session, one task, and one file of every kind, for
the amended C9 witness. -/
def wCatC9 : Catalog :=
  ⟨[['a']], fun _ => [['t']], fun _ => [⟨['p'], ['f']⟩], fun _ => [⟨['q'], ['g']⟩],
   fun _ => [⟨none, ['r'], ['h']⟩], fun _ _ => [⟨['s'], ['k']⟩]⟩

theorem claim_C9_amended_witness :
    Event.mkdir Dest.anat ∈ interfaceRun wCatC9 [['a']] none none ∧
    (∃ rs, resolveSessions wCatC9 [['a']] = Except.ok rs ∧ wCatC9.tasksOf rs ≠ []) ∧
    (∃ e ∈ interfaceRun wCatC9 [['a']] none none, isFmapCopy e = true) :=
  ⟨(claim_C9_amended wCatC9 [['a']] none none).1,
   (claim_C9_amended wCatC9 [['a']] none none).2.1 (by decide),
   (claim_C9_amended wCatC9 [['a']] none none).2.2 (by decide)⟩
